import Mathlib

/-! Shallow embedding of the EliteUnifiedTrade balance / transaction-state
engine (`server/storage.ts` together with the server routes file) and of its
websocket chat subsystem, with theorems checking the specification claims.

Monetary amounts are modelled as rationals: the source stores balances and
amounts as SQL `decimal(10,2)` values (strings at the JS level) and converts
them with `Number(...)`, which we model as the identity on the rational
value.  Every database write of `updatedAt: new Date()` is modelled by an
explicit `now : Nat` parameter.  Record ids are `serial` columns, modelled by
`nextTxId` / `nextInvId` / `nextMsgId` counters in the store. -/

namespace EliteUnifiedTrade

/-- The `role` column of the `users` table (`user` or `admin`). -/
inductive Role
  | user
  | admin
  deriving DecidableEq, Repr

/-- The `transactions.type` field: `deposit`, `withdrawal` or `profit`. -/
inductive TxType
  | deposit
  | withdrawal
  | profit
  deriving DecidableEq, Repr

/-- The `transaction_status` enum: `pending`, `completed`, `rejected`, `failed`. -/
inductive TxStatus
  | pending
  | completed
  | rejected
  | failed
  deriving DecidableEq, Repr

/-- The `plan_status` enum: `active` or `inactive`. -/
inductive PlanStatus
  | active
  | inactive
  deriving DecidableEq, Repr

/-- The `message_status` enum: `unread`, `read` or `replied`. -/
inductive MsgStatus
  | unread
  | read
  | replied
  deriving DecidableEq, Repr

/-- A row of the `users` table; only the columns the modelled routes read or
write are kept (`email`, `password`, `fullName`, `phone` are never consulted
by the balance engine or the chat subsystem). -/
structure User where
  id : Nat
  role : Role
  balance : ℚ
  updatedAt : Nat
  deriving DecidableEq, Repr

/-- A row of the `transactions` table (the `type` column is called `ttype`
here because `type` is reserved in Lean). -/
structure Transaction where
  id : Nat
  userId : Nat
  ttype : TxType
  amount : ℚ
  currency : String
  walletAddress : Option String
  reason : Option String
  status : TxStatus
  updatedAt : Nat
  deriving DecidableEq, Repr

/-- A row of the `investments` table. -/
structure Investment where
  id : Nat
  userId : Nat
  planId : Nat
  amount : ℚ
  isActive : Bool
  deriving DecidableEq, Repr

/-- A row of the `investment_plans` table (only the columns the invest route
reads). -/
structure Plan where
  id : Nat
  minAmount : ℚ
  maxAmount : ℚ
  status : PlanStatus
  deriving DecidableEq, Repr

/-- A row of the `chat_messages` table. -/
structure ChatMessage where
  id : Nat
  userId : Nat
  content : String
  adminResponse : Option String
  adminId : Option Nat
  status : MsgStatus
  updatedAt : Nat
  deriving DecidableEq, Repr

/-- The database state seen by the modelled routes. -/
structure Store where
  users : List User
  transactions : List Transaction
  investments : List Investment
  plans : List Plan
  chatMessages : List ChatMessage
  nextTxId : Nat
  nextInvId : Nat
  nextMsgId : Nat
  deriving DecidableEq, Repr

/-- Errors thrown by the storage layer (`storage.ts`): `getUser` throws when
the user is absent, `updateUserBalance` throws `"Insufficient balance"`, and
`createTransaction` / `createInvestment` throw when a required field is
missing (JS truthiness: an amount of `0` or a `userId` of `0` counts as
missing). -/
inductive StorageErr
  | userNotFound
  | insufficientBalance
  | missingFields
  deriving DecidableEq, Repr

/-- Primitive database writes, logged in the order the handlers issue them. -/
inductive Ev
  | insertTx (txId userId : Nat) (amount : ℚ) (status : TxStatus)
  | insertInv (invId userId : Nat) (amount : ℚ)
  | writeBalance (userId : Nat) (newBalance : ℚ)
  | writeTxStatus (txId : Nat) (status : TxStatus)
  deriving DecidableEq, Repr

/-- Model of `db.update(...).set(...).where(p)`: rewrite every row matching `p`. -/
def updateWhere {α : Type} (l : List α) (p : α → Bool) (g : α → α) : List α :=
  l.map (fun v => if p v then g v else v)

/-- Model of the by-id `db.query.users.findFirst` lookup; also the body of
`DatabaseStorage.getUser` (which throws on `none`, modelled by the callers). -/
def getUser (s : Store) (id : Nat) : Option User :=
  s.users.find? (fun u => decide (u.id = id))

/-- Model of `DatabaseStorage.updateUserBalance` (storage.ts lines 103-120): reads the
user, computes `newBalance = Number(user.balance) + amount`, throws
`"Insufficient balance"` when `newBalance < 0`, otherwise writes `balance`
and `updatedAt` on the row.  Returns the result together with the resulting
store and the log of writes performed. -/
def updateUserBalance (s : Store) (id : Nat) (amount : ℚ) (now : Nat) :
    Except StorageErr User × Store × List Ev :=
  match getUser s id with
  | none => (Except.error StorageErr.userNotFound, s, [])
  | some u =>
    let newBalance := u.balance + amount
    if newBalance < 0 then
      (Except.error StorageErr.insufficientBalance, s, [])
    else
      (Except.ok { u with balance := newBalance, updatedAt := now },
       { s with users := (updateWhere s.users (fun v => decide (v.id = id))
          (fun v => { v with balance := newBalance, updatedAt := now })) },
       [Ev.writeBalance id newBalance])

/-- Argument record of `DatabaseStorage.createTransaction`. -/
structure InsertTx where
  userId : Nat
  ttype : TxType
  amount : ℚ
  currency : Option String
  walletAddress : Option String
  reason : Option String
  status : Option TxStatus
  deriving DecidableEq, Repr

/-- The row `DatabaseStorage.createTransaction` inserts: defaults `status` to
`pending` and `currency` to `"USD"`, id from the `serial` counter. -/
def mkTx (s : Store) (tdata : InsertTx) (now : Nat) : Transaction :=
  { id := s.nextTxId
    userId := tdata.userId
    ttype := tdata.ttype
    amount := tdata.amount
    currency := tdata.currency.getD "USD"
    walletAddress := tdata.walletAddress
    reason := tdata.reason
    status := tdata.status.getD TxStatus.pending
    updatedAt := now }

/-- Model of `DatabaseStorage.createTransaction` (storage.ts lines 200-219): throws
when `type`, `amount` or `userId` is falsy (in this model `ttype` is always
present; `amount = 0` and `userId = 0` are the falsy cases), then inserts
`mkTx`. -/
def createTransaction (s : Store) (tdata : InsertTx) (now : Nat) :
    Except StorageErr Transaction × Store × List Ev :=
  if tdata.amount = 0 ∨ tdata.userId = 0 then
    (Except.error StorageErr.missingFields, s, [])
  else
    (Except.ok (mkTx s tdata now),
     { s with transactions := s.transactions ++ [mkTx s tdata now],
              nextTxId := s.nextTxId + 1 },
     [Ev.insertTx (mkTx s tdata now).id (mkTx s tdata now).userId
        (mkTx s tdata now).amount (mkTx s tdata now).status])

/-- Model of `DatabaseStorage.updateTransactionStatus` (storage.ts lines 221-236):
the enum-membership check always passes here because `status : TxStatus`;
sets `status` and `updatedAt` on every row with the given id and returns the
first updated row (or `none` when no row matched, in which case the source
returns `undefined`). -/
def updateTransactionStatus (s : Store) (id : Nat) (status : TxStatus) (now : Nat) :
    Option Transaction × Store × List Ev :=
  ((s.transactions.find? (fun t => decide (t.id = id))).map
      (fun t => { t with status := status, updatedAt := now }),
   { s with transactions := (updateWhere s.transactions (fun t => decide (t.id = id))
      (fun t => { t with status := status, updatedAt := now })) },
   [Ev.writeTxStatus id status])

/-- Model of `DatabaseStorage.createInvestment` (storage.ts lines 181-198): throws
when `userId`, `planId` or `amount` is falsy (zero), else inserts the row
with `isActive := true`. -/
def createInvestment (s : Store) (userId planId : Nat) (amount : ℚ) :
    Except StorageErr Investment × Store × List Ev :=
  if userId = 0 ∨ planId = 0 ∨ amount = 0 then
    (Except.error StorageErr.missingFields, s, [])
  else
    let inv : Investment :=
      { id := s.nextInvId, userId := userId, planId := planId,
        amount := amount, isActive := true }
    (Except.ok inv,
     { s with investments := s.investments ++ [inv], nextInvId := s.nextInvId + 1 },
     [Ev.insertInv inv.id userId amount])

/-- The distinct HTTP error responses of the modelled routes.  `serverError`
is the catch-all 500 produced when a storage call throws inside a route. -/
inductive RouteErr
  | belowMinimum
  | insufficientBalance
  | planNotFound
  | amountOutOfRange
  | pendingWithdrawalNotFound
  | serverError
  deriving DecidableEq, Repr

/-- Route `POST /api/transactions/deposit`: rejects `amount < 50`, creates the
transaction directly in `completed` status, then credits the balance. -/
def depositRoute (s : Store) (userId : Nat) (amount : ℚ) (currency : Option String)
    (now : Nat) : Except RouteErr Transaction × Store × List Ev :=
  if amount < 50 then
    (Except.error RouteErr.belowMinimum, s, [])
  else
    match createTransaction s
        { userId := userId, ttype := TxType.deposit, amount := amount,
          currency := currency, walletAddress := none, reason := none,
          status := some TxStatus.completed } now with
    | (Except.error _, s1, ev1) => (Except.error RouteErr.serverError, s1, ev1)
    | (Except.ok t, s1, ev1) =>
      match updateUserBalance s1 userId amount now with
      | (Except.error _, s2, ev2) => (Except.error RouteErr.serverError, s2, ev1 ++ ev2)
      | (Except.ok _, s2, ev2) => (Except.ok t, s2, ev1 ++ ev2)

/-- Route `POST /api/transactions/withdraw`: rejects `amount < 50`, rejects when
the user is absent or `Number(user.balance) < amount`, creates the
transaction in `pending` status, then debits the balance. -/
def withdrawRoute (s : Store) (userId : Nat) (amount : ℚ)
    (currency walletAddress reason : Option String) (now : Nat) :
    Except RouteErr Transaction × Store × List Ev :=
  if amount < 50 then
    (Except.error RouteErr.belowMinimum, s, [])
  else
    match getUser s userId with
    | none => (Except.error RouteErr.insufficientBalance, s, [])
    | some u =>
      if u.balance < amount then
        (Except.error RouteErr.insufficientBalance, s, [])
      else
        match createTransaction s
            { userId := userId, ttype := TxType.withdrawal, amount := amount,
              currency := currency, walletAddress := walletAddress,
              reason := reason, status := some TxStatus.pending } now with
        | (Except.error _, s1, ev1) => (Except.error RouteErr.serverError, s1, ev1)
        | (Except.ok t, s1, ev1) =>
          match updateUserBalance s1 userId (-amount) now with
          | (Except.error _, s2, ev2) => (Except.error RouteErr.serverError, s2, ev1 ++ ev2)
          | (Except.ok _, s2, ev2) => (Except.ok t, s2, ev1 ++ ev2)

/-- Route `POST /api/investments`: loads the plan (404 when absent), checks the
plan bounds, checks the balance, creates the investment row, then debits the
balance.  Note the source creates the row before debiting. -/
def investRoute (s : Store) (userId planId : Nat) (amount : ℚ) (now : Nat) :
    Except RouteErr Investment × Store × List Ev :=
  match s.plans.find? (fun p => decide (p.id = planId)) with
  | none => (Except.error RouteErr.planNotFound, s, [])
  | some plan =>
    if amount < plan.minAmount ∨ amount > plan.maxAmount then
      (Except.error RouteErr.amountOutOfRange, s, [])
    else
      match getUser s userId with
      | none => (Except.error RouteErr.insufficientBalance, s, [])
      | some u =>
        if u.balance < amount then
          (Except.error RouteErr.insufficientBalance, s, [])
        else
          match createInvestment s userId planId amount with
          | (Except.error _, s1, ev1) => (Except.error RouteErr.serverError, s1, ev1)
          | (Except.ok inv, s1, ev1) =>
            match updateUserBalance s1 userId (-amount) now with
            | (Except.error _, s2, ev2) => (Except.error RouteErr.serverError, s2, ev1 ++ ev2)
            | (Except.ok _, s2, ev2) => (Except.ok inv, s2, ev1 ++ ev2)

/-- The lookup both admin withdrawal routes perform: `findFirst` on
`id = withdrawalId ∧ type = withdrawal ∧ status = pending`. -/
def findPendingWithdrawal (s : Store) (txId : Nat) : Option Transaction :=
  s.transactions.find? (fun t =>
    decide (t.id = txId) && decide (t.ttype = TxType.withdrawal)
      && decide (t.status = TxStatus.pending))

/-- Route `PATCH /api/admin/withdrawals/:id/approve`: 404 when no pending
withdrawal with that id exists, otherwise sets its status to `completed`
(no balance effect). -/
def approveWithdrawalRoute (s : Store) (txId : Nat) (now : Nat) :
    Except RouteErr (Option Transaction) × Store × List Ev :=
  match findPendingWithdrawal s txId with
  | none => (Except.error RouteErr.pendingWithdrawalNotFound, s, [])
  | some _ =>
    match updateTransactionStatus s txId TxStatus.completed now with
    | (res, s1, ev1) => (Except.ok res, s1, ev1)

/-- Route `PATCH /api/admin/withdrawals/:id/reject`: 404 when no pending
withdrawal with that id exists, otherwise credits back
`Number(withdrawal.amount)` to the user and then sets the status to
`rejected`. -/
def rejectWithdrawalRoute (s : Store) (txId : Nat) (now : Nat) :
    Except RouteErr (Option Transaction) × Store × List Ev :=
  match findPendingWithdrawal s txId with
  | none => (Except.error RouteErr.pendingWithdrawalNotFound, s, [])
  | some w =>
    match updateUserBalance s w.userId w.amount now with
    | (Except.error _, s1, ev1) => (Except.error RouteErr.serverError, s1, ev1)
    | (Except.ok _, s1, ev1) =>
      match updateTransactionStatus s1 txId TxStatus.rejected now with
      | (res, s2, ev2) => (Except.ok res, s2, ev1 ++ ev2)

/-! ### Websocket chat subsystem

The server keeps `const clients = new Map()` from the `userId` query
parameter of the connection URL to the socket.  The URL carries the id as a
decimal numeral and the handlers apply `parseInt` before touching the
database; we key the map by the parsed `Nat` directly.  A socket handle is
modelled by its id and its `readyState === WebSocket.OPEN` flag. -/

/-- A websocket handle: identity plus `readyState === OPEN`. -/
structure Conn where
  connId : Nat
  isOpen : Bool
  deriving DecidableEq, Repr

/-- The `clients` map, as an insertion-ordered association list (JS `Map`
iteration order). -/
abbrev ClientMap : Type := List (Nat × Conn)

/-- Model of `clients.set(userId, ws)`: replace in place when the key is present,
append otherwise. -/
def mapSet (m : ClientMap) (k : Nat) (v : Conn) : ClientMap :=
  if m.any (fun p => decide (p.1 = k)) then
    m.map (fun p => if p.1 = k then (k, v) else p)
  else
    m ++ [(k, v)]

/-- Model of `clients.delete(k)`. -/
def mapDelete (m : ClientMap) (k : Nat) : ClientMap :=
  m.filter (fun p => !(decide (p.1 = k)))

/-- Model of `clients.get(k)`. -/
def mapGet (m : ClientMap) (k : Nat) : Option Conn :=
  (m.find? (fun p => decide (p.1 = k))).map Prod.snd

/-- The `connection` handler: `clients.set(userId, ws)`. -/
def registerConn (m : ClientMap) (userId : Nat) (ws : Conn) : ClientMap :=
  mapSet m userId ws

/-- The close callback installed at connection time:
`ws.on(close, () => clients.delete(userId))`.  It deletes by the `userId`
captured when `_ws` connected, without checking whether the map still holds
`_ws` for that key. -/
def closeConnHandler (m : ClientMap) (userId : Nat) (_ws : Conn) : ClientMap :=
  mapDelete m userId

/-- A server-to-client websocket push payload. -/
inductive Push
  | newMessage (m : ChatMessage)
  | adminReply (m : ChatMessage)
  deriving DecidableEq, Repr

/-- The JS value bound by `const user = db.query.users.findFirst(...)` inside
the chat broadcast loop.  The call is NOT awaited in the source, so the
binding holds the pending `Promise` object, never a row. -/
inductive JsVal
  | promise
  | row (u : User)
  deriving DecidableEq, Repr

/-- The broadcast-loop lookup as the source evaluates it: the unawaited
`findFirst` yields the `Promise` itself. -/
def unawaitedFindUser (_s : Store) (_clientId : Nat) : JsVal :=
  JsVal.promise

/-- JS truthiness of the bound value (`user && ...`): a `Promise` object and
a row are both truthy. -/
def jsTruthy : JsVal → Bool
  | JsVal.promise => true
  | JsVal.row _ => true

/-- The check `user.role === admin-string` on the bound value: a `Promise`
has no `role` property (the access yields `undefined`), so the comparison is
false; on an actual row it compares the role. -/
def roleIsAdminJs : JsVal → Bool
  | JsVal.promise => false
  | JsVal.row u => decide (u.role = Role.admin)

/-- The `type === chat` branch of the websocket message handler: inserts the
chat message with status `unread`, then walks `clients` and sends
`{type: new_message, message}` to every client whose (unawaited) user lookup
is truthy, passes the admin-role check, and whose socket is open.  Returns
the new store and the list of (client key, payload) pushes actually sent. -/
def handleChatMessage (s : Store) (clients : ClientMap) (senderId : Nat)
    (content : String) (now : Nat) : Store × List (Nat × Push) :=
  let m : ChatMessage :=
    { id := s.nextMsgId, userId := senderId, content := content,
      adminResponse := none, adminId := none, status := MsgStatus.unread,
      updatedAt := now }
  let s1 : Store :=
    { s with chatMessages := s.chatMessages ++ [m], nextMsgId := s.nextMsgId + 1 }
  let recipients := clients.filter (fun p =>
    let user := unawaitedFindUser s1 p.1
    jsTruthy user && roleIsAdminJs user && p.2.isOpen)
  (s1, recipients.map (fun p => (p.1, Push.newMessage m)))

/-- The recipients the broadcast loop was written to reach (per the source
comment `Broadcast to all admins`): the same filter with the user lookup
actually awaited.  Used only to state how far the shipped code diverges. -/
def intendedAdminRecipients (s : Store) (clients : ClientMap) : List Nat :=
  (clients.filter (fun p =>
    match getUser s p.1 with
    | some u => decide (u.role = Role.admin) && p.2.isOpen
    | none => false)).map Prod.fst

/-! ### Sequences of core operations

`Op` is one invocation of a core route; `runOps` runs a list of them,
threading the store and a strictly increasing timestamp. -/

/-- One invocation of a balance-affecting route. -/
inductive Op
  | deposit (userId : Nat) (amount : ℚ) (currency : Option String)
  | withdraw (userId : Nat) (amount : ℚ) (currency walletAddress reason : Option String)
  | approve (txId : Nat)
  | reject (txId : Nat)
  | invest (userId planId : Nat) (amount : ℚ)
  deriving DecidableEq, Repr

/-- The store an operation leaves behind. -/
def applyOp (s : Store) (now : Nat) : Op → Store
  | Op.deposit u a c => (depositRoute s u a c now).2.1
  | Op.withdraw u a c w r => (withdrawRoute s u a c w r now).2.1
  | Op.approve txId => (approveWithdrawalRoute s txId now).2.1
  | Op.reject txId => (rejectWithdrawalRoute s txId now).2.1
  | Op.invest u p a => (investRoute s u p a now).2.1

/-- The primitive-write log an operation produces. -/
def opEvents (s : Store) (now : Nat) : Op → List Ev
  | Op.deposit u a c => (depositRoute s u a c now).2.2
  | Op.withdraw u a c w r => (withdrawRoute s u a c w r now).2.2
  | Op.approve txId => (approveWithdrawalRoute s txId now).2.2
  | Op.reject txId => (rejectWithdrawalRoute s txId now).2.2
  | Op.invest u p a => (investRoute s u p a now).2.2

/-- Run a sequence of operations, one tick per operation. -/
def runOps (s : Store) (ops : List Op) (now : Nat) : Store :=
  match ops with
  | [] => s
  | op :: rest => runOps (applyOp s now op) rest (now + 1)

/-- The balance of a user, `0` when absent. -/
def balanceOf (s : Store) (uid : Nat) : ℚ :=
  ((getUser s uid).map User.balance).getD 0

/-- The transactions belonging to a user. -/
def txsOf (s : Store) (uid : Nat) : List Transaction :=
  s.transactions.filter (fun t => decide (t.userId = uid))

/-- Sum of the amounts of a user's transactions matching `p`. -/
def sumTxWhere (s : Store) (uid : Nat) (p : Transaction → Bool) : ℚ :=
  (((txsOf s uid).filter p).map Transaction.amount).sum

/-- Sum of the amounts of the user's completed deposits. -/
def sumCompletedDeposits (s : Store) (uid : Nat) : ℚ :=
  sumTxWhere s uid (fun t =>
    decide (t.ttype = TxType.deposit) && decide (t.status = TxStatus.completed))

/-- Sum of the amounts of the user's profit transactions. -/
def sumProfits (s : Store) (uid : Nat) : ℚ :=
  sumTxWhere s uid (fun t => decide (t.ttype = TxType.profit))

/-- Sum of the amounts of all of the user's withdrawal transactions, in any status. -/
def sumWithdrawalsAll (s : Store) (uid : Nat) : ℚ :=
  sumTxWhere s uid (fun t => decide (t.ttype = TxType.withdrawal))

/-- Sum of the amounts of the user's rejected withdrawals. -/
def sumWithdrawalsRejected (s : Store) (uid : Nat) : ℚ :=
  sumTxWhere s uid (fun t =>
    decide (t.ttype = TxType.withdrawal) && decide (t.status = TxStatus.rejected))

/-- A store holding a single user and nothing else. -/
def initStore (uid : Nat) (b : ℚ) : Store :=
  { users := [{ id := uid, role := Role.user, balance := b, updatedAt := 0 }],
    transactions := [], investments := [], plans := [], chatMessages := [],
    nextTxId := 1, nextInvId := 1, nextMsgId := 1 }

/-! ### Helper lemmas about `updateWhere`, `find?` and amount sums -/

theorem updateWhere_cons {α : Type} (v : α) (l : List α) (p : α → Bool) (g : α → α) :
    updateWhere (v :: l) p g = (if p v then g v else v) :: updateWhere l p g := rfl

theorem updateWhere_eq_self {α : Type} (l : List α) (p : α → Bool) (g : α → α)
    (h : ∀ v ∈ l, p v = false) : updateWhere l p g = l := by
  induction l with
  | nil => rfl
  | cons v t ih =>
    rw [updateWhere_cons, h v (List.mem_cons_self v t), ih (fun x hx => h x (List.mem_cons_of_mem v hx))]
    simp

theorem map_updateWhere {α β : Type} (l : List α) (p : α → Bool) (g : α → α)
    (f : α → β) (hf : ∀ v, f (g v) = f v) :
    (updateWhere l p g).map f = l.map f := by
  induction l with
  | nil => rfl
  | cons v t ih =>
    rw [updateWhere_cons, List.map_cons, List.map_cons, ih]
    cases hv : p v <;> simp [hf v]

theorem find?_updateWhere_self {α : Type} (l : List α) (p : α → Bool) (g : α → α)
    (u : α) (h : l.find? p = some u) (hg : p (g u) = true) :
    (updateWhere l p g).find? p = some (g u) := by
  induction l with
  | nil => simp at h
  | cons v t ih =>
    by_cases hv : p v = true
    · rw [List.find?_cons_of_pos _ hv] at h
      cases h
      rw [updateWhere_cons, if_pos hv, List.find?_cons_of_pos _ hg]
    · rw [List.find?_cons_of_neg _ hv] at h
      rw [updateWhere_cons, if_neg hv, List.find?_cons_of_neg _ hv]
      exact ih h

theorem find?_updateWhere_of_disjoint {α : Type} (l : List α) (p q : α → Bool)
    (g : α → α) (hpq : ∀ v, p v = true → q v = false ∧ q (g v) = false) :
    (updateWhere l p g).find? q = l.find? q := by
  induction l with
  | nil => rfl
  | cons v t ih =>
    by_cases hv : p v = true
    · obtain ⟨h1, h2⟩ := hpq v hv
      rw [updateWhere_cons, if_pos hv, List.find?_cons_of_neg _ (by simp [h2]),
        List.find?_cons_of_neg _ (by simp [h1]), ih]
    · rw [updateWhere_cons, if_neg hv]
      by_cases hq : q v = true
      · rw [List.find?_cons_of_pos _ hq, List.find?_cons_of_pos _ hq]
      · rw [List.find?_cons_of_neg _ hq, List.find?_cons_of_neg _ hq, ih]

theorem find?_updateWhere_none {α : Type} (l : List α) (p q : α → Bool) (g : α → α)
    (h1 : ∀ v, q (g v) = false) (h2 : ∀ v, p v = false → q v = false) :
    (updateWhere l p g).find? q = none := by
  apply List.find?_eq_none.mpr
  intro x hx
  obtain ⟨v, _, rfl⟩ := List.mem_map.mp hx
  cases hp : p v with
  | true => simp [hp, h1 v]
  | false => simp [hp, h2 v hp]

/-- Sum of the amounts of the rows of `l` matching `q`. -/
def sumAmountWhere (l : List Transaction) (q : Transaction → Bool) : ℚ :=
  ((l.filter q).map Transaction.amount).sum

theorem sumAmountWhere_cons (v : Transaction) (l : List Transaction)
    (q : Transaction → Bool) :
    sumAmountWhere (v :: l) q = (if q v then v.amount else 0) + sumAmountWhere l q := by
  cases hq : q v <;> simp [sumAmountWhere, List.filter_cons, hq]

theorem sumAmountWhere_append (l1 l2 : List Transaction) (q : Transaction → Bool) :
    sumAmountWhere (l1 ++ l2) q = sumAmountWhere l1 q + sumAmountWhere l2 q := by
  simp [sumAmountWhere, List.filter_append]

/-- Rewriting the unique row with a given id shifts a filtered amount sum by
removing that row's contribution and adding its image's contribution. -/
theorem sumAmountWhere_updateWhere (l : List Transaction) (txId : Nat)
    (w : Transaction) (g : Transaction → Transaction) (q : Transaction → Bool)
    (hmem : w ∈ l) (hid : w.id = txId)
    (hnodup : (l.map Transaction.id).Nodup) :
    sumAmountWhere (updateWhere l (fun t => decide (t.id = txId)) g) q
      = sumAmountWhere l q - (if q w then w.amount else 0)
        + (if q (g w) then (g w).amount else 0) := by
  induction l with
  | nil => simp at hmem
  | cons v t ih =>
    have hnd : v.id ∉ t.map Transaction.id ∧ (t.map Transaction.id).Nodup := by
      rw [List.map_cons, List.nodup_cons] at hnodup
      exact hnodup
    rcases List.mem_cons.mp hmem with rfl | hmem'
    · have hpv : (fun t => decide (t.id = txId)) w = true := by simp [hid]
      rw [updateWhere_cons, if_pos hpv]
      have ht : ∀ x ∈ t, (fun t => decide (t.id = txId)) x = false := by
        intro x hx
        have hx' : x.id ∈ t.map Transaction.id := List.mem_map_of_mem Transaction.id hx
        simp only [decide_eq_false_iff_not]
        intro hxid
        exact hnd.1 (by rw [hid, ← hxid]; exact hx')
      rw [updateWhere_eq_self t _ g ht, sumAmountWhere_cons, sumAmountWhere_cons]
      ring
    · have hvw : (fun t => decide (t.id = txId)) v = false := by
        simp only [decide_eq_false_iff_not]
        intro hvid
        have hw' : w.id ∈ t.map Transaction.id := List.mem_map_of_mem Transaction.id hmem'
        exact hnd.1 (by rw [hvid, ← hid]; exact hw')
      rw [updateWhere_cons, if_neg (by simp only [hvw]; exact Bool.false_ne_true),
        sumAmountWhere_cons, sumAmountWhere_cons, ih hmem' hnd.2]
      ring

/-! ### Characterizations of the storage primitives -/

theorem getUser_id_eq (s : Store) (id : Nat) (u : User)
    (hu : getUser s id = some u) : u.id = id := by
  have h := List.find?_some hu
  simpa using h

theorem updateUserBalance_err (s : Store) (id : Nat) (a : ℚ) (now : Nat) (u : User)
    (hu : getUser s id = some u) (h : u.balance + a < 0) :
    updateUserBalance s id a now = (Except.error StorageErr.insufficientBalance, s, []) := by
  unfold updateUserBalance
  rw [hu]
  simp [h]

theorem updateUserBalance_ok (s : Store) (id : Nat) (a : ℚ) (now : Nat) (u : User)
    (hu : getUser s id = some u) (h : 0 ≤ u.balance + a) :
    updateUserBalance s id a now =
      (Except.ok { u with balance := u.balance + a, updatedAt := now },
       { s with users := (updateWhere s.users (fun v => decide (v.id = id))
          (fun v => { v with balance := u.balance + a, updatedAt := now })) },
       [Ev.writeBalance id (u.balance + a)]) := by
  unfold updateUserBalance
  rw [hu]
  simp [not_lt.mpr h]

theorem getUser_updateUserBalance_self (s : Store) (id : Nat) (a : ℚ) (now : Nat)
    (u : User) (hu : getUser s id = some u) (h : 0 ≤ u.balance + a) :
    getUser (updateUserBalance s id a now).2.1 id
      = some { u with balance := u.balance + a, updatedAt := now } := by
  rw [updateUserBalance_ok s id a now u hu h]
  unfold getUser
  exact find?_updateWhere_self s.users _ _ u hu (by simp [getUser_id_eq s id u hu])

theorem balanceOf_updateUserBalance_self (s : Store) (id : Nat) (a : ℚ) (now : Nat)
    (u : User) (hu : getUser s id = some u) (h : 0 ≤ u.balance + a) :
    balanceOf (updateUserBalance s id a now).2.1 id = u.balance + a := by
  unfold balanceOf
  rw [getUser_updateUserBalance_self s id a now u hu h]
  rfl

/-- The store a balance update leaves behind: untouched on failure, a single
guarded balance write on success. -/
theorem updateUserBalance_store (s : Store) (id : Nat) (a : ℚ) (now : Nat) :
    (updateUserBalance s id a now).2.1 = s ∨
    ∃ u, getUser s id = some u ∧ 0 ≤ u.balance + a ∧
      (updateUserBalance s id a now).2.1
        = { s with users := (updateWhere s.users (fun v => decide (v.id = id))
            (fun v => { v with balance := u.balance + a, updatedAt := now })) } := by
  cases hg : getUser s id with
  | none =>
    left
    unfold updateUserBalance
    rw [hg]
  | some u =>
    by_cases hb : u.balance + a < 0
    · left
      rw [updateUserBalance_err s id a now u hg hb]
    · right
      exact ⟨u, rfl, not_lt.mp hb,
        by rw [updateUserBalance_ok s id a now u hg (not_lt.mp hb)]⟩

theorem updateUserBalance_transactions (s : Store) (id : Nat) (a : ℚ) (now : Nat) :
    (updateUserBalance s id a now).2.1.transactions = s.transactions := by
  rcases updateUserBalance_store s id a now with h | ⟨u, _, _, h⟩ <;> rw [h]

theorem updateUserBalance_investments (s : Store) (id : Nat) (a : ℚ) (now : Nat) :
    (updateUserBalance s id a now).2.1.investments = s.investments := by
  rcases updateUserBalance_store s id a now with h | ⟨u, _, _, h⟩ <;> rw [h]

theorem getUser_updateUserBalance_ne (s : Store) (id : Nat) (a : ℚ) (now : Nat)
    (oid : Nat) (hne : oid ≠ id) :
    getUser (updateUserBalance s id a now).2.1 oid = getUser s oid := by
  rcases updateUserBalance_store s id a now with h | ⟨u, _, _, h⟩
  · rw [h]
  · rw [h]
    unfold getUser
    apply find?_updateWhere_of_disjoint
    intro v hv
    have hvid : v.id = id := by simpa using hv
    have hvo : ¬ v.id = oid := by rw [hvid]; exact fun hh => hne hh.symm
    constructor
    · simpa using hvo
    · simpa using hvo

theorem createTransaction_ok (s : Store) (tdata : InsertTx) (now : Nat)
    (ha : tdata.amount ≠ 0) (hu : tdata.userId ≠ 0) :
    createTransaction s tdata now =
      (Except.ok (mkTx s tdata now),
       { s with transactions := s.transactions ++ [mkTx s tdata now],
                nextTxId := s.nextTxId + 1 },
       [Ev.insertTx (mkTx s tdata now).id (mkTx s tdata now).userId
          (mkTx s tdata now).amount (mkTx s tdata now).status]) := by
  unfold createTransaction
  rw [if_neg (by simp [ha, hu])]

theorem createInvestment_ok (s : Store) (userId planId : Nat) (amount : ℚ)
    (hu : userId ≠ 0) (hp : planId ≠ 0) (ha : amount ≠ 0) :
    createInvestment s userId planId amount =
      (Except.ok (⟨s.nextInvId, userId, planId, amount, true⟩ : Investment),
       { s with
         investments := (s.investments ++ [⟨s.nextInvId, userId, planId, amount, true⟩]),
         nextInvId := s.nextInvId + 1 },
       [Ev.insertInv s.nextInvId userId amount]) := by
  unfold createInvestment
  rw [if_neg (by simp [ha, hu, hp])]

theorem getUser_set_transactions (s : Store) (txs : List Transaction) (n : Nat) (id : Nat) :
    getUser { s with transactions := txs, nextTxId := n } id = getUser s id := rfl

theorem getUser_set_investments (s : Store) (invs : List Investment) (n : Nat) (id : Nat) :
    getUser { s with investments := invs, nextInvId := n } id = getUser s id := rfl

/-! ### Concrete stores used to instantiate theorems with hypotheses -/

/-- A one-user demo store: user 1 with balance 100. -/
def demoStore : Store := initStore 1 100

/-- The single user row of `demoStore`. -/
def demoUser : User := ⟨1, Role.user, 100, 0⟩

/-- A demo store whose user 1 has balance 200 and that offers plan 1 with
bounds [100, 200]. -/
def investDemoStore : Store :=
  { users := [⟨1, Role.user, 200, 0⟩],
    transactions := [], investments := [],
    plans := [⟨1, 100, 200, PlanStatus.active⟩],
    chatMessages := [], nextTxId := 1, nextInvId := 1, nextMsgId := 1 }

/-! ### C1 — the Balance Engine contract of `updateUserBalance` -/

/-- Claim C1: for every user and every delta (positive or negative),
`updateUserBalance` sets the new balance to old balance + delta; when
old balance + delta would be negative it fails with the insufficient-funds
error and the store is left entirely unchanged (the balance field is not
written). -/
theorem adjustBalance_spec (s : Store) (id : Nat) (delta : ℚ) (now : Nat)
    (u : User) (hu : getUser s id = some u) :
    (u.balance + delta < 0 →
      updateUserBalance s id delta now
        = (Except.error StorageErr.insufficientBalance, s, []))
    ∧ (0 ≤ u.balance + delta →
      (updateUserBalance s id delta now).1
          = Except.ok { u with balance := u.balance + delta, updatedAt := now }
        ∧ balanceOf (updateUserBalance s id delta now).2.1 id = u.balance + delta) := by
  refine ⟨fun h => updateUserBalance_err s id delta now u hu h, fun h => ⟨?_, ?_⟩⟩
  · rw [updateUserBalance_ok s id delta now u hu h]
  · exact balanceOf_updateUserBalance_self s id delta now u hu h

theorem adjustBalance_spec_witness :
    getUser demoStore 1 = some demoUser
    ∧ ((demoUser.balance + (-30) < 0 →
        updateUserBalance demoStore 1 (-30) 5
          = (Except.error StorageErr.insufficientBalance, demoStore, []))
      ∧ (0 ≤ demoUser.balance + (-30) →
        (updateUserBalance demoStore 1 (-30) 5).1
            = Except.ok { demoUser with balance := demoUser.balance + (-30), updatedAt := 5 }
          ∧ balanceOf (updateUserBalance demoStore 1 (-30) 5).2.1 1
            = demoUser.balance + (-30))) :=
  ⟨by with_unfolding_all decide,
   adjustBalance_spec demoStore 1 (-30) 5 demoUser (by with_unfolding_all decide)⟩

/-! ### C10 — stale close deletes the replacing registration -/

theorem mapGet_mapDelete (m : ClientMap) (k : Nat) :
    mapGet (mapDelete m k) k = none := by
  have h : ∀ x ∈ m.filter (fun p => !(decide (p.1 = k))),
      ¬ ((fun p : Nat × Conn => decide (p.1 = k)) x = true) := by
    intro x hx
    have h2 := (List.mem_filter.mp hx).2
    simp only [Bool.not_eq_true', decide_eq_false_iff_not] at h2
    simpa using h2
  unfold mapGet mapDelete
  rw [List.find?_eq_none.mpr h]
  rfl

/-- Claim C10: after identity `uid` registers connection `c1` and then registers
connection `c2` (replacing `c1`), running the close callback of the stale
connection `c1` deletes the registry entry for `uid`, so a lookup afterwards
returns no connection even though `c2` is still open. -/
theorem staleClose_removes_live_registration (m : ClientMap) (uid : Nat)
    (c1 c2 : Conn) :
    mapGet (closeConnHandler (registerConn (registerConn m uid c1) uid c2) uid c1) uid
      = none :=
  mapGet_mapDelete (registerConn (registerConn m uid c1) uid c2) uid

/-! ### C9 — chat persistence works, but the admin broadcast never fires -/

/-- Store for the chat scenario: plain user 1 and admin 2. -/
def chatDemoStore : Store :=
  { users := [⟨1, Role.user, 0, 0⟩, ⟨2, Role.admin, 0, 0⟩],
    transactions := [], investments := [], plans := [],
    chatMessages := [], nextTxId := 1, nextInvId := 1, nextMsgId := 1 }

/-- Both user 1 and admin 2 hold open registered sockets. -/
def chatDemoClients : ClientMap := [(1, ⟨1, true⟩), (2, ⟨2, true⟩)]

/-- Claim C9, failing input: user 1 sends a chat message while admin 2 has an open
registered connection.  The message is persisted with status `unread`, but
the push list is empty: the broadcast loop compares `user.role` on the
unawaited `findFirst` Promise, so the admin check is false for every client
and no `new_message` push is ever sent — although the connection registry
does contain exactly one open admin connection (client 2), as the last
conjunct shows for the awaited lookup the loop was written to perform. -/
theorem chatBroadcast_never_reaches_admins :
    ((handleChatMessage chatDemoStore chatDemoClients 1 "hello" 5).1.chatMessages.map
        (fun m => (m.userId, m.content, m.status))
      = [(1, "hello", MsgStatus.unread)])
    ∧ (handleChatMessage chatDemoStore chatDemoClients 1 "hello" 5).2 = []
    ∧ intendedAdminRecipients chatDemoStore chatDemoClients = [2] :=
  ⟨rfl, rfl, rfl⟩

/-! ### C4 — invest: the record insert precedes the debit -/

/-- Recognizes a Balance Engine write in the log. -/
def isWriteBalance : Ev → Bool
  | Ev.writeBalance _ _ => true
  | _ => false

/-- Recognizes an investment-row insert in the log. -/
def isInsertInv : Ev → Bool
  | Ev.insertInv _ _ _ => true
  | _ => false

/-- The order claimed by the spec: the first balance debit occurs strictly
before the first investment-row insert in the primitive-write log. -/
def debitPrecedesInsert (evs : List Ev) : Bool :=
  match evs.findIdx? isWriteBalance, evs.findIdx? isInsertInv with
  | some i, some j => decide (i < j)
  | _, _ => false

/-- Claim C4, counterexample: with balance 200, plan bounds [100, 200] and
`invest(1, 1, 150)`, the run succeeds and performs both writes, but the log
is insert-then-debit, so the debit does NOT precede the investment-record
creation, contradicting the claimed order. -/
theorem invest_insert_precedes_debit :
    (investRoute investDemoStore 1 1 150 7).2.2
      = [Ev.insertInv 1 1 150, Ev.writeBalance 1 50]
    ∧ debitPrecedesInsert (investRoute investDemoStore 1 1 150 7).2.2 = false
    ∧ (investRoute investDemoStore 1 1 150 7).1
      = Except.ok ⟨1, 1, 1, 150, true⟩ :=
  ⟨by with_unfolding_all rfl, by with_unfolding_all rfl, by with_unfolding_all rfl⟩

/-- Claim C4, amended: after the plan-existence and plan-bounds checks pass, the
route checks balance ≥ amount; if the balance is insufficient the whole
operation fails with the insufficient-balance error, the store (balance and
investments) is unchanged and no Investment row is created; otherwise it
first creates the Investment record and then debits the balance through the
Balance Engine, as two sequential store writes in that order (not one atomic
unit, and the debit does not precede the record creation). -/
theorem invest_checks_insert_then_debit (s : Store) (userId planId : Nat)
    (amount : ℚ) (now : Nat) (plan : Plan) (u : User)
    (hplan : s.plans.find? (fun p => decide (p.id = planId)) = some plan)
    (hmin : plan.minAmount ≤ amount) (hmax : amount ≤ plan.maxAmount)
    (hu : getUser s userId = some u) (huid : userId ≠ 0) (hpid : planId ≠ 0)
    (hamt : amount ≠ 0) :
    (u.balance < amount →
      investRoute s userId planId amount now
        = (Except.error RouteErr.insufficientBalance, s, []))
    ∧ (amount ≤ u.balance →
      (investRoute s userId planId amount now).1
          = Except.ok ⟨s.nextInvId, userId, planId, amount, true⟩
        ∧ (investRoute s userId planId amount now).2.1.investments
          = s.investments ++ [⟨s.nextInvId, userId, planId, amount, true⟩]
        ∧ balanceOf (investRoute s userId planId amount now).2.1 userId
          = u.balance - amount
        ∧ (investRoute s userId planId amount now).2.2
          = [Ev.insertInv s.nextInvId userId amount,
             Ev.writeBalance userId (u.balance + (-amount))]) := by
  have hnr : ¬ (amount < plan.minAmount ∨ amount > plan.maxAmount) := by
    rintro (h1 | h2)
    · exact absurd hmin (not_le.mpr h1)
    · exact absurd hmax (not_le.mpr h2)
  constructor
  · intro hlt
    unfold investRoute
    rw [hplan]
    simp only [if_neg hnr]
    rw [hu]
    simp only [if_pos hlt]
  · intro hge
    have hnn : (0:ℚ) ≤ u.balance + (-amount) := by linarith
    have hu1 : getUser { s with
        investments := (s.investments ++ [⟨s.nextInvId, userId, planId, amount, true⟩]),
        nextInvId := s.nextInvId + 1 } userId = some u := hu
    have hub := updateUserBalance_ok { s with
        investments := (s.investments ++ [⟨s.nextInvId, userId, planId, amount, true⟩]),
        nextInvId := s.nextInvId + 1 } userId (-amount) now u hu1 hnn
    have hbal := balanceOf_updateUserBalance_self { s with
        investments := (s.investments ++ [⟨s.nextInvId, userId, planId, amount, true⟩]),
        nextInvId := s.nextInvId + 1 } userId (-amount) now u hu1 hnn
    rw [hub] at hbal
    refine ⟨?_, ?_, ?_, ?_⟩ <;>
      simp only [investRoute, hplan, if_neg hnr, hu, if_neg (not_lt.mpr hge),
        createInvestment_ok s userId planId amount huid hpid hamt, hub]
    · rw [show u.balance - amount = u.balance + (-amount) from by ring]
      simpa using hbal
    · simp

theorem invest_checks_insert_then_debit_witness :
    investDemoStore.plans.find? (fun p => decide (p.id = 1))
        = some ⟨1, 100, 200, PlanStatus.active⟩
    ∧ (⟨1, 100, 200, PlanStatus.active⟩ : Plan).minAmount ≤ (150:ℚ)
    ∧ (150:ℚ) ≤ (⟨1, 100, 200, PlanStatus.active⟩ : Plan).maxAmount
    ∧ getUser investDemoStore 1 = some ⟨1, Role.user, 200, 0⟩
    ∧ (((⟨1, Role.user, 200, 0⟩ : User).balance < 150 →
        investRoute investDemoStore 1 1 150 7
          = (Except.error RouteErr.insufficientBalance, investDemoStore, []))
      ∧ ((150:ℚ) ≤ (⟨1, Role.user, 200, 0⟩ : User).balance →
        (investRoute investDemoStore 1 1 150 7).1
            = Except.ok ⟨investDemoStore.nextInvId, 1, 1, 150, true⟩
          ∧ (investRoute investDemoStore 1 1 150 7).2.1.investments
            = investDemoStore.investments ++ [⟨investDemoStore.nextInvId, 1, 1, 150, true⟩]
          ∧ balanceOf (investRoute investDemoStore 1 1 150 7).2.1 1
            = (⟨1, Role.user, 200, 0⟩ : User).balance - 150
          ∧ (investRoute investDemoStore 1 1 150 7).2.2
            = [Ev.insertInv investDemoStore.nextInvId 1 150,
               Ev.writeBalance 1 ((⟨1, Role.user, 200, 0⟩ : User).balance + (-150))])) :=
  ⟨by decide, by decide, by decide, by decide,
   invest_checks_insert_then_debit investDemoStore 1 1 150 7
     ⟨1, 100, 200, PlanStatus.active⟩ ⟨1, Role.user, 200, 0⟩
     (by decide) (by decide) (by decide) (by decide)
     (by decide) (by decide) (by decide)⟩

/-! ### C7 — deposit: auto-completed credit above the $50 minimum -/

/-- Claim C7: a deposit at or above the configured $50 minimum creates the
transaction directly in `completed` status and increases the balance by the
amount; below the minimum it fails and neither a transaction is created nor
the balance changed (the store is returned untouched). -/
theorem deposit_spec (s : Store) (uid : Nat) (u : User) (amount : ℚ)
    (currency : Option String) (now : Nat)
    (hu : getUser s uid = some u) (hb : 0 ≤ u.balance) (huid : uid ≠ 0) :
    (amount < 50 →
      depositRoute s uid amount currency now
        = (Except.error RouteErr.belowMinimum, s, []))
    ∧ (50 ≤ amount →
      (depositRoute s uid amount currency now).1
          = Except.ok (mkTx s ⟨uid, TxType.deposit, amount, currency, none, none,
              some TxStatus.completed⟩ now)
        ∧ (mkTx s ⟨uid, TxType.deposit, amount, currency, none, none,
              some TxStatus.completed⟩ now).status = TxStatus.completed
        ∧ (depositRoute s uid amount currency now).2.1.transactions
          = s.transactions ++ [mkTx s ⟨uid, TxType.deposit, amount, currency, none, none,
              some TxStatus.completed⟩ now]
        ∧ balanceOf (depositRoute s uid amount currency now).2.1 uid
          = u.balance + amount) := by
  constructor
  · intro h
    unfold depositRoute
    simp only [if_pos h]
  · intro h50
    have ha : amount ≠ 0 := by
      intro h0
      rw [h0] at h50
      norm_num at h50
    have hnn : (0:ℚ) ≤ u.balance + amount := by linarith
    have hu1 : getUser { s with
        transactions := (s.transactions ++ [mkTx s ⟨uid, TxType.deposit, amount, currency,
          none, none, some TxStatus.completed⟩ now]),
        nextTxId := s.nextTxId + 1 } uid = some u := hu
    have hub := updateUserBalance_ok { s with
        transactions := (s.transactions ++ [mkTx s ⟨uid, TxType.deposit, amount, currency,
          none, none, some TxStatus.completed⟩ now]),
        nextTxId := s.nextTxId + 1 } uid amount now u hu1 hnn
    have hbal := balanceOf_updateUserBalance_self { s with
        transactions := (s.transactions ++ [mkTx s ⟨uid, TxType.deposit, amount, currency,
          none, none, some TxStatus.completed⟩ now]),
        nextTxId := s.nextTxId + 1 } uid amount now u hu1 hnn
    rw [hub] at hbal
    refine ⟨?_, rfl, ?_, ?_⟩ <;>
      simp only [depositRoute, if_neg (not_lt.mpr h50),
        createTransaction_ok s ⟨uid, TxType.deposit, amount, currency, none, none,
          some TxStatus.completed⟩ now ha huid, hub]
    simpa using hbal

/-! ### C3 — withdrawal: immediate debit at creation, reservation style -/

/-- Claim C3: `requestWithdrawal` with minimum ≤ amount ≤ current balance creates a
transaction in status `pending` and debits the balance by the amount
immediately at creation (amount exactly equal to the balance included); when
the amount exceeds the current balance it fails with the
insufficient-balance error and no transaction is created (the store is
returned untouched). -/
theorem requestWithdrawal_spec (s : Store) (uid : Nat) (u : User) (amount : ℚ)
    (currency walletAddress reason : Option String) (now : Nat)
    (hu : getUser s uid = some u) (hmin : 50 ≤ amount) (huid : uid ≠ 0) :
    (amount ≤ u.balance →
      (withdrawRoute s uid amount currency walletAddress reason now).1
          = Except.ok (mkTx s ⟨uid, TxType.withdrawal, amount, currency, walletAddress,
              reason, some TxStatus.pending⟩ now)
        ∧ (mkTx s ⟨uid, TxType.withdrawal, amount, currency, walletAddress,
              reason, some TxStatus.pending⟩ now).status = TxStatus.pending
        ∧ (withdrawRoute s uid amount currency walletAddress reason now).2.1.transactions
          = s.transactions ++ [mkTx s ⟨uid, TxType.withdrawal, amount, currency,
              walletAddress, reason, some TxStatus.pending⟩ now]
        ∧ balanceOf (withdrawRoute s uid amount currency walletAddress reason now).2.1 uid
          = u.balance - amount)
    ∧ (u.balance < amount →
      withdrawRoute s uid amount currency walletAddress reason now
        = (Except.error RouteErr.insufficientBalance, s, [])) := by
  constructor
  · intro hge
    have ha : amount ≠ 0 := by
      intro h0
      rw [h0] at hmin
      norm_num at hmin
    have hnn : (0:ℚ) ≤ u.balance + (-amount) := by linarith
    have hu1 : getUser { s with
        transactions := (s.transactions ++ [mkTx s ⟨uid, TxType.withdrawal, amount, currency,
          walletAddress, reason, some TxStatus.pending⟩ now]),
        nextTxId := s.nextTxId + 1 } uid = some u := hu
    have hub := updateUserBalance_ok { s with
        transactions := (s.transactions ++ [mkTx s ⟨uid, TxType.withdrawal, amount, currency,
          walletAddress, reason, some TxStatus.pending⟩ now]),
        nextTxId := s.nextTxId + 1 } uid (-amount) now u hu1 hnn
    have hbal := balanceOf_updateUserBalance_self { s with
        transactions := (s.transactions ++ [mkTx s ⟨uid, TxType.withdrawal, amount, currency,
          walletAddress, reason, some TxStatus.pending⟩ now]),
        nextTxId := s.nextTxId + 1 } uid (-amount) now u hu1 hnn
    rw [hub] at hbal
    refine ⟨?_, rfl, ?_, ?_⟩ <;>
      simp only [withdrawRoute, if_neg (not_lt.mpr hmin), hu,
        if_neg (not_lt.mpr hge),
        createTransaction_ok s ⟨uid, TxType.withdrawal, amount, currency, walletAddress,
          reason, some TxStatus.pending⟩ now ha huid, hub]
    rw [show u.balance - amount = u.balance + (-amount) from by ring]
    simpa using hbal
  · intro hlt
    unfold withdrawRoute
    rw [if_neg (not_lt.mpr hmin), hu]
    simp only [if_pos hlt]

theorem balanceOf_congr_users (s1 s2 : Store) (uid : Nat) (h : s1.users = s2.users) :
    balanceOf s1 uid = balanceOf s2 uid := by
  unfold balanceOf getUser
  rw [h]

theorem approveWithdrawalRoute_notFound (s : Store) (txId now : Nat)
    (h : findPendingWithdrawal s txId = none) :
    approveWithdrawalRoute s txId now
      = (Except.error RouteErr.pendingWithdrawalNotFound, s, []) := by
  unfold approveWithdrawalRoute
  rw [h]

theorem rejectWithdrawalRoute_notFound (s : Store) (txId now : Nat)
    (h : findPendingWithdrawal s txId = none) :
    rejectWithdrawalRoute s txId now
      = (Except.error RouteErr.pendingWithdrawalNotFound, s, []) := by
  unfold rejectWithdrawalRoute
  rw [h]

/-! ### C6 — approval is a pure status flip, and only once -/

/-- Claim C6: approving a pending withdrawal sets its status to `completed` and
changes nothing else: the users list (hence every balance) is untouched, the
only store change is the status/updatedAt rewrite of the rows with that id,
and the only primitive write is the status write.  A second approval of the
same transaction fails with the pending-not-found response (the source's
rendering of the invalid-state-transition failure) and returns the store
verbatim, altering nothing beyond the first approval's effect. -/
theorem approveWithdrawal_frame (s : Store) (txId : Nat) (now now2 : Nat)
    (w : Transaction) (hw : findPendingWithdrawal s txId = some w) :
    approveWithdrawalRoute s txId now
      = (Except.ok ((s.transactions.find? (fun t => decide (t.id = txId))).map
          (fun t => { t with status := TxStatus.completed, updatedAt := now })),
         { s with transactions := (updateWhere s.transactions (fun t => decide (t.id = txId))
            (fun t => { t with status := TxStatus.completed, updatedAt := now })) },
         [Ev.writeTxStatus txId TxStatus.completed])
    ∧ approveWithdrawalRoute (approveWithdrawalRoute s txId now).2.1 txId now2
      = (Except.error RouteErr.pendingWithdrawalNotFound,
         (approveWithdrawalRoute s txId now).2.1, []) := by
  have h1 : approveWithdrawalRoute s txId now
      = (Except.ok ((s.transactions.find? (fun t => decide (t.id = txId))).map
          (fun t => { t with status := TxStatus.completed, updatedAt := now })),
         { s with transactions := (updateWhere s.transactions (fun t => decide (t.id = txId))
            (fun t => { t with status := TxStatus.completed, updatedAt := now })) },
         [Ev.writeTxStatus txId TxStatus.completed]) := by
    unfold approveWithdrawalRoute
    rw [hw]
    simp [updateTransactionStatus]
  have hnone : findPendingWithdrawal (approveWithdrawalRoute s txId now).2.1 txId = none := by
    unfold findPendingWithdrawal
    rw [show (approveWithdrawalRoute s txId now).2.1.transactions
        = updateWhere s.transactions (fun t => decide (t.id = txId))
            (fun t => { t with status := TxStatus.completed, updatedAt := now }) from by rw [h1]]
    apply find?_updateWhere_none
    · intro v
      simp
    · intro v hv
      simp only [hv, Bool.false_and]
  exact ⟨h1, approveWithdrawalRoute_notFound _ txId now2 hnone⟩

/-! ### C5 — rejection credits exactly once -/

/-- Claim C5: rejecting a pending withdrawal credits the user's balance by the
withdrawal amount exactly once and sets the status to `rejected` (the only
primitive writes being that single credit and the status write); a second
call on the same transaction id fails with the pending-not-found response
(the source's rendering of the invalid-state-transition failure) and returns
the store verbatim, leaving the balance and the transaction unchanged. -/
theorem rejectWithdrawal_idempotent (s : Store) (txId : Nat) (now now2 : Nat)
    (w : Transaction) (u : User)
    (hw : findPendingWithdrawal s txId = some w)
    (hu : getUser s w.userId = some u) (hnn : 0 ≤ u.balance + w.amount) :
    balanceOf (rejectWithdrawalRoute s txId now).2.1 w.userId = u.balance + w.amount
    ∧ (rejectWithdrawalRoute s txId now).2.1.transactions
      = updateWhere s.transactions (fun t => decide (t.id = txId))
          (fun t => { t with status := TxStatus.rejected, updatedAt := now })
    ∧ (rejectWithdrawalRoute s txId now).2.2
      = [Ev.writeBalance w.userId (u.balance + w.amount),
         Ev.writeTxStatus txId TxStatus.rejected]
    ∧ rejectWithdrawalRoute (rejectWithdrawalRoute s txId now).2.1 txId now2
      = (Except.error RouteErr.pendingWithdrawalNotFound,
         (rejectWithdrawalRoute s txId now).2.1, []) := by
  have hub := updateUserBalance_ok s w.userId w.amount now u hu hnn
  have h1 : rejectWithdrawalRoute s txId now
      = (Except.ok ((s.transactions.find? (fun t => decide (t.id = txId))).map
            (fun t => { t with status := TxStatus.rejected, updatedAt := now })),
         { s with
           users := (updateWhere s.users (fun v => decide (v.id = w.userId))
              (fun v => { v with balance := u.balance + w.amount, updatedAt := now })),
           transactions := (updateWhere s.transactions (fun t => decide (t.id = txId))
              (fun t => { t with status := TxStatus.rejected, updatedAt := now })) },
         [Ev.writeBalance w.userId (u.balance + w.amount),
          Ev.writeTxStatus txId TxStatus.rejected]) := by
    unfold rejectWithdrawalRoute
    rw [hw]
    simp [hub, updateTransactionStatus]
  have hnone : findPendingWithdrawal (rejectWithdrawalRoute s txId now).2.1 txId = none := by
    unfold findPendingWithdrawal
    rw [show (rejectWithdrawalRoute s txId now).2.1.transactions
        = updateWhere s.transactions (fun t => decide (t.id = txId))
            (fun t => { t with status := TxStatus.rejected, updatedAt := now }) from by rw [h1]]
    apply find?_updateWhere_none
    · intro v
      simp
    · intro v hv
      simp only [hv, Bool.false_and]
  refine ⟨?_, ?_, ?_, ?_⟩
  · have husers : (rejectWithdrawalRoute s txId now).2.1.users
        = (updateUserBalance s w.userId w.amount now).2.1.users := by
      rw [h1, hub]
    rw [balanceOf_congr_users (rejectWithdrawalRoute s txId now).2.1
      (updateUserBalance s w.userId w.amount now).2.1 w.userId husers]
    exact balanceOf_updateUserBalance_self s w.userId w.amount now u hu hnn
  · rw [h1]
  · rw [h1]
  · exact rejectWithdrawalRoute_notFound _ txId now2 hnone

/-! ### Witness instantiations for the route theorems -/

theorem deposit_spec_witness :
    getUser demoStore 1 = some demoUser
    ∧ (0:ℚ) ≤ demoUser.balance
    ∧ (1:Nat) ≠ 0
    ∧ (((60:ℚ) < 50 →
        depositRoute demoStore 1 60 none 3
          = (Except.error RouteErr.belowMinimum, demoStore, []))
      ∧ ((50:ℚ) ≤ 60 →
        (depositRoute demoStore 1 60 none 3).1
            = Except.ok (mkTx demoStore ⟨1, TxType.deposit, 60, none, none, none,
                some TxStatus.completed⟩ 3)
          ∧ (mkTx demoStore ⟨1, TxType.deposit, 60, none, none, none,
                some TxStatus.completed⟩ 3).status = TxStatus.completed
          ∧ (depositRoute demoStore 1 60 none 3).2.1.transactions
            = demoStore.transactions ++ [mkTx demoStore ⟨1, TxType.deposit, 60, none, none,
                none, some TxStatus.completed⟩ 3]
          ∧ balanceOf (depositRoute demoStore 1 60 none 3).2.1 1
            = demoUser.balance + 60)) :=
  ⟨by with_unfolding_all decide, by with_unfolding_all decide, by decide,
   deposit_spec demoStore 1 demoUser 60 none 3 (by with_unfolding_all decide)
     (by with_unfolding_all decide) (by decide)⟩

theorem requestWithdrawal_spec_witness :
    getUser demoStore 1 = some demoUser
    ∧ (50:ℚ) ≤ 100
    ∧ (1:Nat) ≠ 0
    ∧ (((100:ℚ) ≤ demoUser.balance →
        (withdrawRoute demoStore 1 100 none none none 3).1
            = Except.ok (mkTx demoStore ⟨1, TxType.withdrawal, 100, none, none,
                none, some TxStatus.pending⟩ 3)
          ∧ (mkTx demoStore ⟨1, TxType.withdrawal, 100, none, none,
                none, some TxStatus.pending⟩ 3).status = TxStatus.pending
          ∧ (withdrawRoute demoStore 1 100 none none none 3).2.1.transactions
            = demoStore.transactions ++ [mkTx demoStore ⟨1, TxType.withdrawal, 100, none,
                none, none, some TxStatus.pending⟩ 3]
          ∧ balanceOf (withdrawRoute demoStore 1 100 none none none 3).2.1 1
            = demoUser.balance - 100)
      ∧ (demoUser.balance < 100 →
        withdrawRoute demoStore 1 100 none none none 3
          = (Except.error RouteErr.insufficientBalance, demoStore, []))) :=
  ⟨by with_unfolding_all decide, by with_unfolding_all decide, by decide,
   requestWithdrawal_spec demoStore 1 demoUser 100 none none none 3
     (by with_unfolding_all decide) (by with_unfolding_all decide) (by decide)⟩

/-- The state of `demoStore` after user 1 withdraws 60: balance 40 and one pending
withdrawal transaction with id 1. -/
def pendingWithdrawalStore : Store := (withdrawRoute demoStore 1 60 none none none 3).2.1

/-- The pending withdrawal row sitting in `pendingWithdrawalStore`. -/
def pendingTx : Transaction :=
  ⟨1, 1, TxType.withdrawal, 60, "USD", none, none, TxStatus.pending, 3⟩

theorem approveWithdrawal_frame_witness :
    findPendingWithdrawal pendingWithdrawalStore 1 = some pendingTx
    ∧ (approveWithdrawalRoute pendingWithdrawalStore 1 4
        = (Except.ok ((pendingWithdrawalStore.transactions.find?
              (fun t => decide (t.id = 1))).map
            (fun t => { t with status := TxStatus.completed, updatedAt := 4 })),
           { pendingWithdrawalStore with
             transactions := (updateWhere pendingWithdrawalStore.transactions
                (fun t => decide (t.id = 1))
                (fun t => { t with status := TxStatus.completed, updatedAt := 4 })) },
           [Ev.writeTxStatus 1 TxStatus.completed])
      ∧ approveWithdrawalRoute (approveWithdrawalRoute pendingWithdrawalStore 1 4).2.1 1 5
        = (Except.error RouteErr.pendingWithdrawalNotFound,
           (approveWithdrawalRoute pendingWithdrawalStore 1 4).2.1, [])) :=
  ⟨by with_unfolding_all decide,
   approveWithdrawal_frame pendingWithdrawalStore 1 4 5 pendingTx
     (by with_unfolding_all decide)⟩

theorem rejectWithdrawal_idempotent_witness :
    findPendingWithdrawal pendingWithdrawalStore 1 = some pendingTx
    ∧ getUser pendingWithdrawalStore pendingTx.userId = some ⟨1, Role.user, 40, 3⟩
    ∧ (0:ℚ) ≤ (⟨1, Role.user, 40, 3⟩ : User).balance + pendingTx.amount
    ∧ (balanceOf (rejectWithdrawalRoute pendingWithdrawalStore 1 4).2.1 pendingTx.userId
        = (⟨1, Role.user, 40, 3⟩ : User).balance + pendingTx.amount
      ∧ (rejectWithdrawalRoute pendingWithdrawalStore 1 4).2.1.transactions
        = updateWhere pendingWithdrawalStore.transactions (fun t => decide (t.id = 1))
            (fun t => { t with status := TxStatus.rejected, updatedAt := 4 })
      ∧ (rejectWithdrawalRoute pendingWithdrawalStore 1 4).2.2
        = [Ev.writeBalance pendingTx.userId
             ((⟨1, Role.user, 40, 3⟩ : User).balance + pendingTx.amount),
           Ev.writeTxStatus 1 TxStatus.rejected]
      ∧ rejectWithdrawalRoute (rejectWithdrawalRoute pendingWithdrawalStore 1 4).2.1 1 5
        = (Except.error RouteErr.pendingWithdrawalNotFound,
           (rejectWithdrawalRoute pendingWithdrawalStore 1 4).2.1, [])) :=
  ⟨by with_unfolding_all decide, by with_unfolding_all decide, by with_unfolding_all decide,
   rejectWithdrawal_idempotent pendingWithdrawalStore 1 4 5 pendingTx ⟨1, Role.user, 40, 3⟩
     (by with_unfolding_all decide) (by with_unfolding_all decide)
     (by with_unfolding_all decide)⟩

/-! ### C2 — the single-user ledger equation -/

/-- Predicate: completed deposit. -/
def qDepC : Transaction → Bool := fun t =>
  decide (t.ttype = TxType.deposit) && decide (t.status = TxStatus.completed)

/-- Predicate: profit transaction. -/
def qProf : Transaction → Bool := fun t => decide (t.ttype = TxType.profit)

/-- Predicate: any withdrawal. -/
def qWAll : Transaction → Bool := fun t => decide (t.ttype = TxType.withdrawal)

/-- Predicate: rejected withdrawal. -/
def qWRej : Transaction → Bool := fun t =>
  decide (t.ttype = TxType.withdrawal) && decide (t.status = TxStatus.rejected)

theorem sumCompletedDeposits_eq (s : Store) (uid : Nat) :
    sumCompletedDeposits s uid = sumAmountWhere (txsOf s uid) qDepC := rfl

theorem sumProfits_eq (s : Store) (uid : Nat) :
    sumProfits s uid = sumAmountWhere (txsOf s uid) qProf := rfl

theorem sumWithdrawalsAll_eq (s : Store) (uid : Nat) :
    sumWithdrawalsAll s uid = sumAmountWhere (txsOf s uid) qWAll := rfl

theorem sumWithdrawalsRejected_eq (s : Store) (uid : Nat) :
    sumWithdrawalsRejected s uid = sumAmountWhere (txsOf s uid) qWRej := rfl

theorem txsOf_eq_self (s : Store) (uid : Nat)
    (h : ∀ t ∈ s.transactions, t.userId = uid) : txsOf s uid = s.transactions := by
  unfold txsOf
  rw [List.filter_eq_self.mpr]
  intro t ht
  simp [h t ht]

/-- The net effect of one transaction row on the ledger equation. -/
def txDelta (t : Transaction) : ℚ :=
  (if qDepC t then t.amount else 0) + (if qProf t then t.amount else 0)
    - (if qWAll t then t.amount else 0) + (if qWRej t then t.amount else 0)

/-- Inductive invariant for the single-user ledger equation: the user exists,
all rows belong to them with fresh distinct ids and non-negative amounts, the
balance is non-negative, and the ledger equation holds. -/
structure LedgerInv (uid : Nat) (b : ℚ) (s : Store) : Prop where
  user_mem : ∃ u, getUser s uid = some u
  owner : ∀ t ∈ s.transactions, t.userId = uid
  ids_lt : ∀ t ∈ s.transactions, t.id < s.nextTxId
  ids_nodup : (s.transactions.map Transaction.id).Nodup
  amounts_nonneg : ∀ t ∈ s.transactions, 0 ≤ t.amount
  bal_nonneg : 0 ≤ balanceOf s uid
  equation : balanceOf s uid
    = b + sumCompletedDeposits s uid + sumProfits s uid
      - sumWithdrawalsAll s uid + sumWithdrawalsRejected s uid

theorem balanceOf_eq_of_getUser (s : Store) (uid : Nat) (u : User)
    (hu : getUser s uid = some u) : balanceOf s uid = u.balance := by
  unfold balanceOf
  rw [hu]
  rfl

theorem sumAmountWhere_singleton (t : Transaction) (q : Transaction → Bool) :
    sumAmountWhere [t] q = (if q t then t.amount else 0) := by
  cases hq : q t <;> simp [sumAmountWhere, List.filter_cons, hq]

/-- Transition lemma: appending one fresh row owned by the user while writing
their balance to `u.balance + d` preserves the invariant, provided
`d = txDelta t`. -/
theorem ledgerInv_append (uid : Nat) (b d : ℚ) (s s2 : Store) (now : Nat)
    (u : User) (t : Transaction) (hinv : LedgerInv uid b s)
    (hu : getUser s uid = some u)
    (htuid : t.userId = uid) (htid : t.id = s.nextTxId) (hta : 0 ≤ t.amount)
    (husers : s2.users = updateWhere s.users (fun v => decide (v.id = uid))
        (fun v => { v with balance := u.balance + d, updatedAt := now }))
    (htxs : s2.transactions = s.transactions ++ [t])
    (hnext : s2.nextTxId = s.nextTxId + 1)
    (hd : d = txDelta t) (hnn : 0 ≤ u.balance + d) :
    LedgerInv uid b s2 := by
  have hgu2 : getUser s2 uid = some { u with balance := u.balance + d, updatedAt := now } := by
    unfold getUser
    rw [husers]
    exact find?_updateWhere_self s.users _ _ u hu (by simp [getUser_id_eq s uid u hu])
  have hbal2 : balanceOf s2 uid = u.balance + d := by
    rw [balanceOf_eq_of_getUser s2 uid _ hgu2]
  have hsum : ∀ q : Transaction → Bool,
      sumAmountWhere (txsOf s2 uid) q
        = sumAmountWhere (txsOf s uid) q + (if q t then t.amount else 0) := by
    intro q
    have : txsOf s2 uid = txsOf s uid ++ [t] := by
      unfold txsOf
      rw [htxs, List.filter_append]
      simp [htuid]
    rw [this, sumAmountWhere_append, sumAmountWhere_singleton]
  refine ⟨⟨_, hgu2⟩, ?_, ?_, ?_, ?_, ?_, ?_⟩
  · intro x hx
    rw [htxs] at hx
    rcases List.mem_append.mp hx with hx | hx
    · exact hinv.owner x hx
    · rw [List.mem_singleton.mp hx]
      exact htuid
  · intro x hx
    rw [htxs] at hx
    rw [hnext]
    rcases List.mem_append.mp hx with hx | hx
    · exact Nat.lt_succ_of_lt (hinv.ids_lt x hx)
    · rw [List.mem_singleton.mp hx, htid]
      exact Nat.lt_succ_self _
  · rw [htxs, List.map_append]
    apply List.Nodup.append hinv.ids_nodup (List.nodup_singleton _)
    intro x hx hy
    rw [List.mem_singleton.mp hy] at hx
    obtain ⟨t0, ht0, ht0id⟩ := List.mem_map.mp hx
    have := hinv.ids_lt t0 ht0
    rw [ht0id, htid] at this
    exact absurd this (lt_irrefl _)
  · intro x hx
    rw [htxs] at hx
    rcases List.mem_append.mp hx with hx | hx
    · exact hinv.amounts_nonneg x hx
    · rw [List.mem_singleton.mp hx]
      exact hta
  · rw [hbal2]
    exact hnn
  · rw [hbal2, sumCompletedDeposits_eq, sumProfits_eq, sumWithdrawalsAll_eq,
      sumWithdrawalsRejected_eq, hsum qDepC, hsum qProf, hsum qWAll, hsum qWRej,
      ← sumCompletedDeposits_eq, ← sumProfits_eq, ← sumWithdrawalsAll_eq,
      ← sumWithdrawalsRejected_eq]
    have heq := hinv.equation
    have hbu : balanceOf s uid = u.balance := balanceOf_eq_of_getUser s uid u hu
    rw [hbu] at heq
    rw [hd]
    unfold txDelta
    linarith [heq]

/-- Transition lemma: rewriting the status of the unique row with a given id
(while the balance moves by exactly the induced ledger delta) preserves the
invariant. -/
theorem ledgerInv_statusUpdate (uid : Nat) (b d : ℚ) (s s2 : Store) (now : Nat)
    (w : Transaction) (txId : Nat) (st : TxStatus)
    (hinv : LedgerInv uid b s)
    (hw : w ∈ s.transactions) (hwid : w.id = txId)
    (htxs : s2.transactions = updateWhere s.transactions (fun t => decide (t.id = txId))
        (fun t => { t with status := st, updatedAt := now }))
    (hnext : s2.nextTxId = s.nextTxId)
    (huser2 : ∃ u2, getUser s2 uid = some u2)
    (hbal2 : balanceOf s2 uid = balanceOf s uid + d)
    (hd : d = txDelta { w with status := st, updatedAt := now } - txDelta w)
    (hnn : 0 ≤ balanceOf s uid + d) :
    LedgerInv uid b s2 := by
  have hmap : s2.transactions.map Transaction.id = s.transactions.map Transaction.id := by
    rw [htxs]
    exact map_updateWhere _ _ _ _ (fun v => rfl)
  have hmem2 : ∀ x ∈ s2.transactions, ∃ v ∈ s.transactions,
      x = { v with status := st, updatedAt := now } ∨ x = v := by
    intro x hx
    rw [htxs] at hx
    obtain ⟨v, hv, hvx⟩ := List.mem_map.mp hx
    refine ⟨v, hv, ?_⟩
    by_cases hp : (fun t => decide (t.id = txId)) v = true
    · rw [if_pos hp] at hvx
      exact Or.inl hvx.symm
    · rw [if_neg hp] at hvx
      exact Or.inr hvx.symm
  have hsum : ∀ q : Transaction → Bool,
      sumAmountWhere (txsOf s2 uid) q
        = sumAmountWhere (txsOf s uid) q - (if q w then w.amount else 0)
          + (if q { w with status := st, updatedAt := now } then w.amount else 0) := by
    intro q
    have ho2 : ∀ t ∈ s2.transactions, t.userId = uid := by
      intro x hx
      obtain ⟨v, hv, hvx | hvx⟩ := hmem2 x hx
      · rw [hvx]
        exact hinv.owner v hv
      · rw [hvx]
        exact hinv.owner v hv
    rw [txsOf_eq_self s2 uid ho2, txsOf_eq_self s uid hinv.owner, htxs]
    exact sumAmountWhere_updateWhere s.transactions txId w _ q hw hwid hinv.ids_nodup
  refine ⟨huser2, ?_, ?_, ?_, ?_, ?_, ?_⟩
  · intro x hx
    obtain ⟨v, hv, hvx | hvx⟩ := hmem2 x hx
    · rw [hvx]
      exact hinv.owner v hv
    · rw [hvx]
      exact hinv.owner v hv
  · intro x hx
    have hxid : x.id ∈ s.transactions.map Transaction.id := by
      rw [← hmap]
      exact List.mem_map_of_mem Transaction.id hx
    obtain ⟨v, hv, hvid⟩ := List.mem_map.mp hxid
    rw [hnext, ← hvid]
    exact hinv.ids_lt v hv
  · rw [hmap]
    exact hinv.ids_nodup
  · intro x hx
    obtain ⟨v, hv, hvx | hvx⟩ := hmem2 x hx
    · rw [hvx]
      exact hinv.amounts_nonneg v hv
    · rw [hvx]
      exact hinv.amounts_nonneg v hv
  · rw [hbal2]
    exact hnn
  · rw [hbal2, sumCompletedDeposits_eq, sumProfits_eq, sumWithdrawalsAll_eq,
      sumWithdrawalsRejected_eq, hsum qDepC, hsum qProf, hsum qWAll, hsum qWRej,
      ← sumCompletedDeposits_eq, ← sumProfits_eq, ← sumWithdrawalsAll_eq,
      ← sumWithdrawalsRejected_eq]
    have heq := hinv.equation
    rw [hd]
    unfold txDelta
    linarith [heq]

/-! ### Full characterizations of the route handlers (helpers) -/

theorem depositRoute_belowMin (s : Store) (uid : Nat) (a : ℚ) (c : Option String)
    (now : Nat) (h : a < 50) :
    depositRoute s uid a c now = (Except.error RouteErr.belowMinimum, s, []) := by
  unfold depositRoute
  simp only [if_pos h]

theorem depositRoute_uid0 (s : Store) (a : ℚ) (c : Option String) (now : Nat)
    (h50 : ¬ a < 50) :
    depositRoute s 0 a c now = (Except.error RouteErr.serverError, s, []) := by
  unfold depositRoute
  rw [if_neg h50]
  rw [show createTransaction s ⟨0, TxType.deposit, a, c, none, none,
      some TxStatus.completed⟩ now = (Except.error StorageErr.missingFields, s, []) from by
    unfold createTransaction
    rw [if_pos (Or.inr rfl)]]

theorem depositRoute_ok (s : Store) (uid : Nat) (u : User) (a : ℚ) (c : Option String)
    (now : Nat) (hu : getUser s uid = some u) (h50 : 50 ≤ a) (huid : uid ≠ 0)
    (hnn : 0 ≤ u.balance + a) :
    depositRoute s uid a c now
      = (Except.ok (mkTx s ⟨uid, TxType.deposit, a, c, none, none,
            some TxStatus.completed⟩ now),
         { s with
           users := (updateWhere s.users (fun v => decide (v.id = uid))
              (fun v => { v with balance := u.balance + a, updatedAt := now })),
           transactions := (s.transactions ++ [mkTx s ⟨uid, TxType.deposit, a, c, none,
              none, some TxStatus.completed⟩ now]),
           nextTxId := s.nextTxId + 1 },
         [Ev.insertTx s.nextTxId uid a TxStatus.completed,
          Ev.writeBalance uid (u.balance + a)]) := by
  have ha : a ≠ 0 := by
    intro h0
    rw [h0] at h50
    norm_num at h50
  have hu1 : getUser { s with
      transactions := (s.transactions ++ [mkTx s ⟨uid, TxType.deposit, a, c, none, none,
        some TxStatus.completed⟩ now]),
      nextTxId := s.nextTxId + 1 } uid = some u := hu
  have hub := updateUserBalance_ok { s with
      transactions := (s.transactions ++ [mkTx s ⟨uid, TxType.deposit, a, c, none, none,
        some TxStatus.completed⟩ now]),
      nextTxId := s.nextTxId + 1 } uid a now u hu1 hnn
  simp only [depositRoute, if_neg (not_lt.mpr h50),
    createTransaction_ok s ⟨uid, TxType.deposit, a, c, none, none,
      some TxStatus.completed⟩ now ha huid, hub]
  simp [mkTx]

theorem withdrawRoute_belowMin (s : Store) (uid : Nat) (a : ℚ)
    (c wa r : Option String) (now : Nat) (h : a < 50) :
    withdrawRoute s uid a c wa r now = (Except.error RouteErr.belowMinimum, s, []) := by
  unfold withdrawRoute
  simp only [if_pos h]

theorem withdrawRoute_insufficient (s : Store) (uid : Nat) (u : User) (a : ℚ)
    (c wa r : Option String) (now : Nat) (hu : getUser s uid = some u)
    (hmin : ¬ a < 50) (hlt : u.balance < a) :
    withdrawRoute s uid a c wa r now
      = (Except.error RouteErr.insufficientBalance, s, []) := by
  unfold withdrawRoute
  rw [if_neg hmin, hu]
  simp only [if_pos hlt]

theorem withdrawRoute_uid0 (s : Store) (u : User) (a : ℚ) (c wa r : Option String)
    (now : Nat) (hu : getUser s 0 = some u) (hmin : ¬ a < 50)
    (hge : ¬ u.balance < a) :
    withdrawRoute s 0 a c wa r now = (Except.error RouteErr.serverError, s, []) := by
  unfold withdrawRoute
  rw [if_neg hmin, hu]
  simp only [if_neg hge]
  rw [show createTransaction s ⟨0, TxType.withdrawal, a, c, wa, r,
      some TxStatus.pending⟩ now = (Except.error StorageErr.missingFields, s, []) from by
    unfold createTransaction
    rw [if_pos (Or.inr rfl)]]

theorem withdrawRoute_ok (s : Store) (uid : Nat) (u : User) (a : ℚ)
    (c wa r : Option String) (now : Nat) (hu : getUser s uid = some u)
    (hmin : 50 ≤ a) (huid : uid ≠ 0) (hge : a ≤ u.balance) :
    withdrawRoute s uid a c wa r now
      = (Except.ok (mkTx s ⟨uid, TxType.withdrawal, a, c, wa, r,
            some TxStatus.pending⟩ now),
         { s with
           users := (updateWhere s.users (fun v => decide (v.id = uid))
              (fun v => { v with balance := u.balance + -a, updatedAt := now })),
           transactions := (s.transactions ++ [mkTx s ⟨uid, TxType.withdrawal, a, c, wa, r,
              some TxStatus.pending⟩ now]),
           nextTxId := s.nextTxId + 1 },
         [Ev.insertTx s.nextTxId uid a TxStatus.pending,
          Ev.writeBalance uid (u.balance + -a)]) := by
  have ha : a ≠ 0 := by
    intro h0
    rw [h0] at hmin
    norm_num at hmin
  have hnn : (0:ℚ) ≤ u.balance + -a := by linarith
  have hu1 : getUser { s with
      transactions := (s.transactions ++ [mkTx s ⟨uid, TxType.withdrawal, a, c, wa, r,
        some TxStatus.pending⟩ now]),
      nextTxId := s.nextTxId + 1 } uid = some u := hu
  have hub := updateUserBalance_ok { s with
      transactions := (s.transactions ++ [mkTx s ⟨uid, TxType.withdrawal, a, c, wa, r,
        some TxStatus.pending⟩ now]),
      nextTxId := s.nextTxId + 1 } uid (-a) now u hu1 hnn
  simp only [withdrawRoute, if_neg (not_lt.mpr hmin), hu, if_neg (not_lt.mpr hge),
    createTransaction_ok s ⟨uid, TxType.withdrawal, a, c, wa, r,
      some TxStatus.pending⟩ now ha huid, hub]
  simp [mkTx]

theorem approveWithdrawalRoute_ok (s : Store) (txId now : Nat) (w : Transaction)
    (hw : findPendingWithdrawal s txId = some w) :
    approveWithdrawalRoute s txId now
      = (Except.ok ((s.transactions.find? (fun t => decide (t.id = txId))).map
          (fun t => { t with status := TxStatus.completed, updatedAt := now })),
         { s with transactions := (updateWhere s.transactions (fun t => decide (t.id = txId))
            (fun t => { t with status := TxStatus.completed, updatedAt := now })) },
         [Ev.writeTxStatus txId TxStatus.completed]) := by
  unfold approveWithdrawalRoute
  rw [hw]
  simp [updateTransactionStatus]

theorem rejectWithdrawalRoute_ok (s : Store) (txId now : Nat) (w : Transaction)
    (u : User) (hw : findPendingWithdrawal s txId = some w)
    (hu : getUser s w.userId = some u) (hnn : 0 ≤ u.balance + w.amount) :
    rejectWithdrawalRoute s txId now
      = (Except.ok ((s.transactions.find? (fun t => decide (t.id = txId))).map
            (fun t => { t with status := TxStatus.rejected, updatedAt := now })),
         { s with
           users := (updateWhere s.users (fun v => decide (v.id = w.userId))
              (fun v => { v with balance := u.balance + w.amount, updatedAt := now })),
           transactions := (updateWhere s.transactions (fun t => decide (t.id = txId))
              (fun t => { t with status := TxStatus.rejected, updatedAt := now })) },
         [Ev.writeBalance w.userId (u.balance + w.amount),
          Ev.writeTxStatus txId TxStatus.rejected]) := by
  have hub := updateUserBalance_ok s w.userId w.amount now u hu hnn
  unfold rejectWithdrawalRoute
  rw [hw]
  simp [hub, updateTransactionStatus]

/-- The operations of the C2 ledger equation on a fixed user: deposits and
withdrawals of that user, and any approvals/rejections (they act on that
user's transactions when the store only holds their transactions); `invest`
is not one of the four C2 operations. -/
def Op.isForUser (uid : Nat) : Op → Bool
  | Op.deposit u _ _ => decide (u = uid)
  | Op.withdraw u _ _ _ _ => decide (u = uid)
  | Op.approve _ => true
  | Op.reject _ => true
  | Op.invest _ _ _ => false

theorem ledgerInv_applyOp (uid : Nat) (b : ℚ) (s : Store) (now : Nat) (op : Op)
    (hop : Op.isForUser uid op = true) (hinv : LedgerInv uid b s) :
    LedgerInv uid b (applyOp s now op) := by
  cases op with
  | deposit v a c =>
    have hv : v = uid := by simpa [Op.isForUser] using hop
    subst hv
    obtain ⟨u, hu⟩ := hinv.user_mem
    by_cases h50 : a < 50
    · show LedgerInv v b (depositRoute s v a c now).2.1
      rw [depositRoute_belowMin s v a c now h50]
      exact hinv
    · by_cases huid : v = 0
      · subst huid
        show LedgerInv 0 b (depositRoute s 0 a c now).2.1
        rw [depositRoute_uid0 s a c now h50]
        exact hinv
      · have hb0 : 0 ≤ u.balance := by
          have hbn := hinv.bal_nonneg
          rw [balanceOf_eq_of_getUser s v u hu] at hbn
          exact hbn
        have h50' : (50:ℚ) ≤ a := not_lt.mp h50
        have hnn : (0:ℚ) ≤ u.balance + a := by linarith
        show LedgerInv v b (depositRoute s v a c now).2.1
        rw [depositRoute_ok s v u a c now hu h50' huid hnn]
        exact ledgerInv_append v b a s _ now u
          (mkTx s ⟨v, TxType.deposit, a, c, none, none, some TxStatus.completed⟩ now)
          hinv hu rfl rfl (by show (0:ℚ) ≤ a; linarith) rfl rfl rfl
          (by simp [txDelta, qDepC, qProf, qWAll, qWRej, mkTx]) hnn
  | withdraw v a c wa r =>
    have hv : v = uid := by simpa [Op.isForUser] using hop
    subst hv
    obtain ⟨u, hu⟩ := hinv.user_mem
    by_cases h50 : a < 50
    · show LedgerInv v b (withdrawRoute s v a c wa r now).2.1
      rw [withdrawRoute_belowMin s v a c wa r now h50]
      exact hinv
    · by_cases hlt : u.balance < a
      · show LedgerInv v b (withdrawRoute s v a c wa r now).2.1
        rw [withdrawRoute_insufficient s v u a c wa r now hu h50 hlt]
        exact hinv
      · by_cases huid : v = 0
        · subst huid
          show LedgerInv 0 b (withdrawRoute s 0 a c wa r now).2.1
          rw [withdrawRoute_uid0 s u a c wa r now hu h50 hlt]
          exact hinv
        · have h50' : (50:ℚ) ≤ a := not_lt.mp h50
          have hge : a ≤ u.balance := not_lt.mp hlt
          have hnn : (0:ℚ) ≤ u.balance + -a := by linarith
          show LedgerInv v b (withdrawRoute s v a c wa r now).2.1
          rw [withdrawRoute_ok s v u a c wa r now hu h50' huid hge]
          exact ledgerInv_append v b (-a) s _ now u
            (mkTx s ⟨v, TxType.withdrawal, a, c, wa, r, some TxStatus.pending⟩ now)
            hinv hu rfl rfl (by show (0:ℚ) ≤ a; linarith) rfl rfl rfl
            (by simp [txDelta, qDepC, qProf, qWAll, qWRej, mkTx]) hnn
  | approve txId =>
    cases hfp : findPendingWithdrawal s txId with
    | none =>
      show LedgerInv uid b (approveWithdrawalRoute s txId now).2.1
      rw [approveWithdrawalRoute_notFound s txId now hfp]
      exact hinv
    | some w =>
      have hof := List.find?_some hfp
      simp only [Bool.and_eq_true, decide_eq_true_eq] at hof
      obtain ⟨⟨hwid, hty⟩, hst⟩ := hof
      have hmem := List.mem_of_find?_eq_some hfp
      show LedgerInv uid b (approveWithdrawalRoute s txId now).2.1
      rw [approveWithdrawalRoute_ok s txId now w hfp]
      refine ledgerInv_statusUpdate uid b 0 s _ now w txId TxStatus.completed hinv
        hmem hwid rfl rfl ?_ ?_ ?_ ?_
      · exact hinv.user_mem
      · rw [add_zero]
        exact balanceOf_congr_users _ s uid rfl
      · simp [txDelta, qDepC, qProf, qWAll, qWRej, hty, hst]
      · rw [add_zero]
        exact hinv.bal_nonneg
  | reject txId =>
    cases hfp : findPendingWithdrawal s txId with
    | none =>
      show LedgerInv uid b (rejectWithdrawalRoute s txId now).2.1
      rw [rejectWithdrawalRoute_notFound s txId now hfp]
      exact hinv
    | some w =>
      have hof := List.find?_some hfp
      simp only [Bool.and_eq_true, decide_eq_true_eq] at hof
      obtain ⟨⟨hwid, hty⟩, hst⟩ := hof
      have hmem := List.mem_of_find?_eq_some hfp
      have hwu : w.userId = uid := hinv.owner w hmem
      obtain ⟨u, hu⟩ := hinv.user_mem
      have hu' : getUser s w.userId = some u := by
        rw [hwu]
        exact hu
      have hb0 : 0 ≤ u.balance := by
        have hbn := hinv.bal_nonneg
        rw [balanceOf_eq_of_getUser s uid u hu] at hbn
        exact hbn
      have hwa : 0 ≤ w.amount := hinv.amounts_nonneg w hmem
      have hnn : 0 ≤ u.balance + w.amount := by linarith
      show LedgerInv uid b (rejectWithdrawalRoute s txId now).2.1
      rw [rejectWithdrawalRoute_ok s txId now w u hfp hu' hnn]
      refine ledgerInv_statusUpdate uid b w.amount s _ now w txId TxStatus.rejected hinv
        hmem hwid rfl rfl ?_ ?_ ?_ ?_
      · refine ⟨{ u with balance := u.balance + w.amount, updatedAt := now }, ?_⟩
        unfold getUser
        rw [show ({ s with
            users := (updateWhere s.users (fun v => decide (v.id = w.userId))
               (fun v => { v with balance := u.balance + w.amount, updatedAt := now })),
            transactions := (updateWhere s.transactions (fun t => decide (t.id = txId))
               (fun t => { t with status := TxStatus.rejected, updatedAt := now })) } : Store).users
          = updateWhere s.users (fun v => decide (v.id = uid))
              (fun v => { v with balance := u.balance + w.amount, updatedAt := now }) from by
          rw [hwu]]
        exact find?_updateWhere_self s.users _ _ u hu (by simp [getUser_id_eq s uid u hu])
      · have hg2 : getUser ({ s with
            users := (updateWhere s.users (fun v => decide (v.id = w.userId))
               (fun v => { v with balance := u.balance + w.amount, updatedAt := now })),
            transactions := (updateWhere s.transactions (fun t => decide (t.id = txId))
               (fun t => { t with status := TxStatus.rejected, updatedAt := now })) } : Store) uid
            = some { u with balance := u.balance + w.amount, updatedAt := now } := by
          unfold getUser
          rw [show ({ s with
              users := (updateWhere s.users (fun v => decide (v.id = w.userId))
                 (fun v => { v with balance := u.balance + w.amount, updatedAt := now })),
              transactions := (updateWhere s.transactions (fun t => decide (t.id = txId))
                 (fun t => { t with status := TxStatus.rejected, updatedAt := now })) } : Store).users
            = updateWhere s.users (fun v => decide (v.id = uid))
                (fun v => { v with balance := u.balance + w.amount, updatedAt := now }) from by
            rw [hwu]]
          exact find?_updateWhere_self s.users _ _ u hu (by simp [getUser_id_eq s uid u hu])
        rw [balanceOf_eq_of_getUser _ uid _ hg2, balanceOf_eq_of_getUser s uid u hu]
      · simp [txDelta, qDepC, qProf, qWAll, qWRej, hty, hst]
      · have hbu : balanceOf s uid = u.balance := balanceOf_eq_of_getUser s uid u hu
        rw [hbu]
        exact hnn
  | invest v p a =>
    simp [Op.isForUser] at hop

theorem ledgerInv_runOps (uid : Nat) (b : ℚ) (s : Store) (ops : List Op) (n0 : Nat)
    (hops : ∀ op ∈ ops, Op.isForUser uid op = true) (hinv : LedgerInv uid b s) :
    LedgerInv uid b (runOps s ops n0) := by
  induction ops generalizing s n0 with
  | nil => exact hinv
  | cons op rest ih =>
    exact ih (applyOp s n0 op) (n0 + 1)
      (fun o ho => hops o (List.mem_cons_of_mem op ho))
      (ledgerInv_applyOp uid b s n0 op (hops op (List.mem_cons_self op rest)) hinv)

theorem ledgerInv_init (uid : Nat) (b : ℚ) (hb : 0 ≤ b) :
    LedgerInv uid b (initStore uid b) := by
  have hgu : getUser (initStore uid b) uid
      = some { id := uid, role := Role.user, balance := b, updatedAt := 0 } := by
    unfold getUser initStore
    simp
  refine ⟨⟨_, hgu⟩, ?_, ?_, ?_, ?_, ?_, ?_⟩
  · intro t ht
    simp [initStore] at ht
  · intro t ht
    simp [initStore] at ht
  · simp [initStore]
  · intro t ht
    simp [initStore] at ht
  · rw [balanceOf_eq_of_getUser _ uid _ hgu]
    exact hb
  · rw [balanceOf_eq_of_getUser _ uid _ hgu]
    simp [sumCompletedDeposits, sumProfits, sumWithdrawalsAll, sumWithdrawalsRejected,
      sumTxWhere, txsOf, initStore]

/-- Claim C2: for every sequence of deposit, requestWithdrawal, approveWithdrawal
and rejectWithdrawal operations on a single (existing) user with
non-negative starting balance, the final balance equals the initial balance
plus Σ completed deposit amounts, plus Σ profit amounts, minus Σ amounts of
all withdrawals ever created (debit at creation), plus Σ amounts of rejected
withdrawals (compensating credit). -/
theorem ledger_equation (uid : Nat) (b : ℚ) (ops : List Op) (n0 : Nat)
    (hb : 0 ≤ b) (hops : ∀ op ∈ ops, Op.isForUser uid op = true) :
    balanceOf (runOps (initStore uid b) ops n0) uid
      = b + sumCompletedDeposits (runOps (initStore uid b) ops n0) uid
        + sumProfits (runOps (initStore uid b) ops n0) uid
        - sumWithdrawalsAll (runOps (initStore uid b) ops n0) uid
        + sumWithdrawalsRejected (runOps (initStore uid b) ops n0) uid :=
  (ledgerInv_runOps uid b (initStore uid b) ops n0 hops (ledgerInv_init uid b hb)).equation

theorem ledger_equation_witness :
    (0:ℚ) ≤ 100
    ∧ (∀ op ∈ [Op.deposit 1 60 none, Op.withdraw 1 50 none none none, Op.reject 2,
        Op.withdraw 1 80 none none none, Op.approve 3], Op.isForUser 1 op = true)
    ∧ balanceOf (runOps (initStore 1 100) [Op.deposit 1 60 none,
          Op.withdraw 1 50 none none none, Op.reject 2,
          Op.withdraw 1 80 none none none, Op.approve 3] 10) 1
      = 100 + sumCompletedDeposits (runOps (initStore 1 100) [Op.deposit 1 60 none,
            Op.withdraw 1 50 none none none, Op.reject 2,
            Op.withdraw 1 80 none none none, Op.approve 3] 10) 1
        + sumProfits (runOps (initStore 1 100) [Op.deposit 1 60 none,
            Op.withdraw 1 50 none none none, Op.reject 2,
            Op.withdraw 1 80 none none none, Op.approve 3] 10) 1
        - sumWithdrawalsAll (runOps (initStore 1 100) [Op.deposit 1 60 none,
            Op.withdraw 1 50 none none none, Op.reject 2,
            Op.withdraw 1 80 none none none, Op.approve 3] 10) 1
        + sumWithdrawalsRejected (runOps (initStore 1 100) [Op.deposit 1 60 none,
            Op.withdraw 1 50 none none none, Op.reject 2,
            Op.withdraw 1 80 none none none, Op.approve 3] 10) 1 :=
  ⟨by with_unfolding_all decide, by decide,
   ledger_equation 1 100 [Op.deposit 1 60 none, Op.withdraw 1 50 none none none,
     Op.reject 2, Op.withdraw 1 80 none none none, Op.approve 3] 10
     (by with_unfolding_all decide) (by decide)⟩

/-! ### C8 — non-negative balances, and the Balance Engine as sole writer -/

/-- Every stored user has a non-negative balance. -/
def NonNegBalances (s : Store) : Prop := ∀ u ∈ s.users, 0 ≤ u.balance

theorem nonNeg_of_users_eq (s1 s2 : Store) (h : s1.users = s2.users)
    (hn : NonNegBalances s2) : NonNegBalances s1 := by
  unfold NonNegBalances at hn ⊢
  rw [h]
  exact hn

theorem nonneg_updateWhere_balance (l : List User) (target : Nat) (nb : ℚ) (now : Nat)
    (hl : ∀ v ∈ l, 0 ≤ v.balance) (hnb : 0 ≤ nb) :
    ∀ v ∈ updateWhere l (fun v => decide (v.id = target))
        (fun v => { v with balance := nb, updatedAt := now }), 0 ≤ v.balance := by
  intro v hv
  obtain ⟨x, hx, hxv⟩ := List.mem_map.mp hv
  subst hxv
  by_cases hp : (fun v : User => decide (v.id = target)) x = true
  · rw [if_pos hp]
    exact hnb
  · rw [if_neg hp]
    exact hl x hx

/-- Lemma: `updateUserBalance` either throws (store untouched) or performs one
guarded write of a non-negative balance. -/
theorem updateUserBalance_cases (s : Store) (id : Nat) (a : ℚ) (now : Nat) :
    (∃ e, updateUserBalance s id a now = (Except.error e, s, []))
    ∨ ∃ u, getUser s id = some u ∧ 0 ≤ u.balance + a ∧
        updateUserBalance s id a now
          = (Except.ok { u with balance := u.balance + a, updatedAt := now },
             { s with users := (updateWhere s.users (fun v => decide (v.id = id))
                (fun v => { v with balance := u.balance + a, updatedAt := now })) },
             [Ev.writeBalance id (u.balance + a)]) := by
  cases hg : getUser s id with
  | none =>
    left
    refine ⟨StorageErr.userNotFound, ?_⟩
    unfold updateUserBalance
    rw [hg]
  | some u =>
    by_cases hb : u.balance + a < 0
    · left
      exact ⟨StorageErr.insufficientBalance, updateUserBalance_err s id a now u hg hb⟩
    · right
      exact ⟨u, rfl, not_lt.mp hb, updateUserBalance_ok s id a now u hg (not_lt.mp hb)⟩

theorem createTransaction_store (s : Store) (tdata : InsertTx) (now : Nat) :
    createTransaction s tdata now = (Except.error StorageErr.missingFields, s, [])
    ∨ createTransaction s tdata now
      = (Except.ok (mkTx s tdata now),
         { s with transactions := (s.transactions ++ [mkTx s tdata now]),
                  nextTxId := s.nextTxId + 1 },
         [Ev.insertTx (mkTx s tdata now).id (mkTx s tdata now).userId
            (mkTx s tdata now).amount (mkTx s tdata now).status]) := by
  unfold createTransaction
  split
  · left
    rfl
  · right
    rfl

theorem createInvestment_store (s : Store) (userId planId : Nat) (amount : ℚ) :
    createInvestment s userId planId amount
      = (Except.error StorageErr.missingFields, s, [])
    ∨ createInvestment s userId planId amount
      = (Except.ok (⟨s.nextInvId, userId, planId, amount, true⟩ : Investment),
         { s with
           investments := (s.investments ++ [⟨s.nextInvId, userId, planId, amount, true⟩]),
           nextInvId := s.nextInvId + 1 },
         [Ev.insertInv s.nextInvId userId amount]) := by
  unfold createInvestment
  split
  · left
    rfl
  · right
    rfl

theorem nonneg_depositRoute (s : Store) (uid : Nat) (a : ℚ) (c : Option String)
    (now : Nat) (h : NonNegBalances s) :
    NonNegBalances (depositRoute s uid a c now).2.1 := by
  unfold depositRoute
  by_cases h50 : a < 50
  · simp only [if_pos h50]
    exact h
  · simp only [if_neg h50]
    rcases createTransaction_store s ⟨uid, TxType.deposit, a, c, none, none,
        some TxStatus.completed⟩ now with hct | hct
    · simp only [hct]
      exact h
    · simp only [hct]
      rcases updateUserBalance_cases { s with
          transactions := (s.transactions ++ [mkTx s ⟨uid, TxType.deposit, a, c, none,
            none, some TxStatus.completed⟩ now]),
          nextTxId := s.nextTxId + 1 } uid a now with ⟨e, hub⟩ | ⟨u, hg, hnn, hub⟩
      · simp only [hub]
        exact nonNeg_of_users_eq _ s rfl h
      · simp only [hub]
        intro v hv
        exact nonneg_updateWhere_balance s.users uid (u.balance + a) now h hnn v hv

theorem nonneg_withdrawRoute (s : Store) (uid : Nat) (a : ℚ)
    (c wa r : Option String) (now : Nat) (h : NonNegBalances s) :
    NonNegBalances (withdrawRoute s uid a c wa r now).2.1 := by
  unfold withdrawRoute
  by_cases h50 : a < 50
  · simp only [if_pos h50]
    exact h
  · simp only [if_neg h50]
    cases hgu : getUser s uid with
    | none =>
      simp only [hgu]
      exact h
    | some u0 =>
      simp only [hgu]
      by_cases hlt : u0.balance < a
      · simp only [if_pos hlt]
        exact h
      · simp only [if_neg hlt]
        rcases createTransaction_store s ⟨uid, TxType.withdrawal, a, c, wa, r,
            some TxStatus.pending⟩ now with hct | hct
        · simp only [hct]
          exact h
        · simp only [hct]
          rcases updateUserBalance_cases { s with
              transactions := (s.transactions ++ [mkTx s ⟨uid, TxType.withdrawal, a, c, wa,
                r, some TxStatus.pending⟩ now]),
              nextTxId := s.nextTxId + 1 } uid (-a) now with ⟨e, hub⟩ | ⟨u, hg, hnn, hub⟩
          · simp only [hub]
            exact nonNeg_of_users_eq _ s rfl h
          · simp only [hub]
            intro v hv
            exact nonneg_updateWhere_balance s.users uid (u.balance + -a) now h hnn v hv

theorem nonneg_investRoute (s : Store) (uid planId : Nat) (a : ℚ) (now : Nat)
    (h : NonNegBalances s) :
    NonNegBalances (investRoute s uid planId a now).2.1 := by
  unfold investRoute
  cases hp : s.plans.find? (fun p => decide (p.id = planId)) with
  | none =>
    simp only [hp]
    exact h
  | some plan =>
    simp only [hp]
    by_cases hr : a < plan.minAmount ∨ a > plan.maxAmount
    · simp only [if_pos hr]
      exact h
    · simp only [if_neg hr]
      cases hgu : getUser s uid with
      | none =>
        simp only [hgu]
        exact h
      | some u0 =>
        simp only [hgu]
        by_cases hlt : u0.balance < a
        · simp only [if_pos hlt]
          exact h
        · simp only [if_neg hlt]
          rcases createInvestment_store s uid planId a with hci | hci
          · simp only [hci]
            exact h
          · simp only [hci]
            rcases updateUserBalance_cases { s with
                investments := (s.investments ++ [⟨s.nextInvId, uid, planId, a, true⟩]),
                nextInvId := s.nextInvId + 1 } uid (-a) now with ⟨e, hub⟩ | ⟨u, hg, hnn, hub⟩
            · simp only [hub]
              exact nonNeg_of_users_eq _ s rfl h
            · simp only [hub]
              intro v hv
              exact nonneg_updateWhere_balance s.users uid (u.balance + -a) now h hnn v hv

theorem nonneg_approveRoute (s : Store) (txId now : Nat) (h : NonNegBalances s) :
    NonNegBalances (approveWithdrawalRoute s txId now).2.1 := by
  cases hfp : findPendingWithdrawal s txId with
  | none =>
    rw [approveWithdrawalRoute_notFound s txId now hfp]
    exact h
  | some w =>
    rw [approveWithdrawalRoute_ok s txId now w hfp]
    exact nonNeg_of_users_eq _ s rfl h

theorem nonneg_rejectRoute (s : Store) (txId now : Nat) (h : NonNegBalances s) :
    NonNegBalances (rejectWithdrawalRoute s txId now).2.1 := by
  cases hfp : findPendingWithdrawal s txId with
  | none =>
    rw [rejectWithdrawalRoute_notFound s txId now hfp]
    exact h
  | some w =>
    unfold rejectWithdrawalRoute
    simp only [hfp]
    rcases updateUserBalance_cases s w.userId w.amount now with ⟨e, hub⟩ | ⟨u, hg, hnn, hub⟩
    · simp only [hub]
      exact h
    · simp only [hub, updateTransactionStatus]
      intro v hv
      exact nonneg_updateWhere_balance s.users w.userId (u.balance + w.amount) now h hnn v hv

theorem nonneg_applyOp (s : Store) (now : Nat) (op : Op) (h : NonNegBalances s) :
    NonNegBalances (applyOp s now op) := by
  cases op with
  | deposit u a c => exact nonneg_depositRoute s u a c now h
  | withdraw u a c wa r => exact nonneg_withdrawRoute s u a c wa r now h
  | approve t => exact nonneg_approveRoute s t now h
  | reject t => exact nonneg_rejectRoute s t now h
  | invest u p a => exact nonneg_investRoute s u p a now h

theorem nonneg_runOps (s : Store) (ops : List Op) (n0 : Nat) (h : NonNegBalances s) :
    NonNegBalances (runOps s ops n0) := by
  induction ops generalizing s n0 with
  | nil => exact h
  | cons op rest ih => exact ih (applyOp s n0 op) (n0 + 1) (nonneg_applyOp s n0 op h)

theorem balanceOf_updateWhere_frame (s s2 : Store) (target : Nat) (nb : ℚ)
    (now : Nat) (id : Nat)
    (husers : s2.users = updateWhere s.users (fun v => decide (v.id = target))
        (fun v => { v with balance := nb, updatedAt := now }))
    (hne : id ≠ target) : balanceOf s2 id = balanceOf s id := by
  unfold balanceOf getUser
  rw [husers, find?_updateWhere_of_disjoint]
  intro v hv
  have hvid : v.id = target := by simpa using hv
  have hvo : ¬ v.id = id := by
    rw [hvid]
    exact fun hh => hne hh.symm
  exact ⟨by simpa using hvo, by simpa using hvo⟩

theorem depositRoute_balance_frame (s : Store) (uid : Nat) (a : ℚ)
    (c : Option String) (now : Nat) (id : Nat)
    (hne : balanceOf (depositRoute s uid a c now).2.1 id ≠ balanceOf s id) :
    ∃ q, Ev.writeBalance id q ∈ (depositRoute s uid a c now).2.2 := by
  by_cases h50 : a < 50
  · rw [depositRoute_belowMin s uid a c now h50] at hne
    exact absurd rfl hne
  · rcases createTransaction_store s ⟨uid, TxType.deposit, a, c, none, none,
        some TxStatus.completed⟩ now with hct | hct
    · have hroute : depositRoute s uid a c now
          = (Except.error RouteErr.serverError, s, []) := by
        unfold depositRoute
        rw [if_neg h50]
        simp [hct]
      rw [hroute] at hne
      exact absurd rfl hne
    · rcases updateUserBalance_cases { s with
          transactions := (s.transactions ++ [mkTx s ⟨uid, TxType.deposit, a, c, none,
            none, some TxStatus.completed⟩ now]),
          nextTxId := s.nextTxId + 1 } uid a now with ⟨e, hub⟩ | ⟨u, hg, hnn, hub⟩
      · have hroute : depositRoute s uid a c now
            = (Except.error RouteErr.serverError, { s with
                transactions := (s.transactions ++ [mkTx s ⟨uid, TxType.deposit, a, c, none,
                  none, some TxStatus.completed⟩ now]),
                nextTxId := s.nextTxId + 1 },
               [Ev.insertTx (mkTx s ⟨uid, TxType.deposit, a, c, none, none,
                  some TxStatus.completed⟩ now).id
                  (mkTx s ⟨uid, TxType.deposit, a, c, none, none,
                    some TxStatus.completed⟩ now).userId
                  (mkTx s ⟨uid, TxType.deposit, a, c, none, none,
                    some TxStatus.completed⟩ now).amount
                  (mkTx s ⟨uid, TxType.deposit, a, c, none, none,
                    some TxStatus.completed⟩ now).status]) := by
          unfold depositRoute
          rw [if_neg h50]
          simp [hct, hub]
        rw [hroute, balanceOf_congr_users _ s id rfl] at hne
        exact absurd rfl hne
      · have hroute : depositRoute s uid a c now
            = (Except.ok (mkTx s ⟨uid, TxType.deposit, a, c, none, none,
                  some TxStatus.completed⟩ now),
               { { s with
                   transactions := (s.transactions ++ [mkTx s ⟨uid, TxType.deposit, a, c,
                     none, none, some TxStatus.completed⟩ now]),
                   nextTxId := s.nextTxId + 1 } with
                 users := (updateWhere s.users (fun v => decide (v.id = uid))
                    (fun v => { v with balance := u.balance + a, updatedAt := now })) },
               [Ev.insertTx (mkTx s ⟨uid, TxType.deposit, a, c, none, none,
                  some TxStatus.completed⟩ now).id
                  (mkTx s ⟨uid, TxType.deposit, a, c, none, none,
                    some TxStatus.completed⟩ now).userId
                  (mkTx s ⟨uid, TxType.deposit, a, c, none, none,
                    some TxStatus.completed⟩ now).amount
                  (mkTx s ⟨uid, TxType.deposit, a, c, none, none,
                    some TxStatus.completed⟩ now).status,
                Ev.writeBalance uid (u.balance + a)]) := by
          unfold depositRoute
          rw [if_neg h50]
          simp [hct, hub]
        by_cases hid : id = uid
        · subst hid
          refine ⟨u.balance + a, ?_⟩
          rw [hroute]
          simp
        · rw [hroute, balanceOf_updateWhere_frame s _ uid (u.balance + a) now id rfl hid] at hne
          exact absurd rfl hne

theorem withdrawRoute_balance_frame (s : Store) (uid : Nat) (a : ℚ)
    (c wa r : Option String) (now : Nat) (id : Nat)
    (hne : balanceOf (withdrawRoute s uid a c wa r now).2.1 id ≠ balanceOf s id) :
    ∃ q, Ev.writeBalance id q ∈ (withdrawRoute s uid a c wa r now).2.2 := by
  by_cases h50 : a < 50
  · rw [withdrawRoute_belowMin s uid a c wa r now h50] at hne
    exact absurd rfl hne
  · cases hgu : getUser s uid with
    | none =>
      have hroute : withdrawRoute s uid a c wa r now
          = (Except.error RouteErr.insufficientBalance, s, []) := by
        unfold withdrawRoute
        rw [if_neg h50, hgu]
      rw [hroute] at hne
      exact absurd rfl hne
    | some u0 =>
      by_cases hlt : u0.balance < a
      · rw [withdrawRoute_insufficient s uid u0 a c wa r now hgu h50 hlt] at hne
        exact absurd rfl hne
      · rcases createTransaction_store s ⟨uid, TxType.withdrawal, a, c, wa, r,
            some TxStatus.pending⟩ now with hct | hct
        · have hroute : withdrawRoute s uid a c wa r now
              = (Except.error RouteErr.serverError, s, []) := by
            unfold withdrawRoute
            rw [if_neg h50, hgu]
            simp only [if_neg hlt]
            simp [hct]
          rw [hroute] at hne
          exact absurd rfl hne
        · rcases updateUserBalance_cases { s with
              transactions := (s.transactions ++ [mkTx s ⟨uid, TxType.withdrawal, a, c, wa,
                r, some TxStatus.pending⟩ now]),
              nextTxId := s.nextTxId + 1 } uid (-a) now with ⟨e, hub⟩ | ⟨u, hg, hnn, hub⟩
          · have hroute : (withdrawRoute s uid a c wa r now).2.1
                = { s with
                    transactions := (s.transactions ++ [mkTx s ⟨uid, TxType.withdrawal, a,
                      c, wa, r, some TxStatus.pending⟩ now]),
                    nextTxId := s.nextTxId + 1 } := by
              unfold withdrawRoute
              rw [if_neg h50, hgu]
              simp only [if_neg hlt]
              simp [hct, hub]
            rw [hroute, balanceOf_congr_users _ s id rfl] at hne
            exact absurd rfl hne
          · have hroute : withdrawRoute s uid a c wa r now
                = (Except.ok (mkTx s ⟨uid, TxType.withdrawal, a, c, wa, r,
                      some TxStatus.pending⟩ now),
                   { { s with
                       transactions := (s.transactions ++ [mkTx s ⟨uid, TxType.withdrawal,
                         a, c, wa, r, some TxStatus.pending⟩ now]),
                       nextTxId := s.nextTxId + 1 } with
                     users := (updateWhere s.users (fun v => decide (v.id = uid))
                        (fun v => { v with balance := u.balance + -a, updatedAt := now })) },
                   [Ev.insertTx (mkTx s ⟨uid, TxType.withdrawal, a, c, wa, r,
                      some TxStatus.pending⟩ now).id
                      (mkTx s ⟨uid, TxType.withdrawal, a, c, wa, r,
                        some TxStatus.pending⟩ now).userId
                      (mkTx s ⟨uid, TxType.withdrawal, a, c, wa, r,
                        some TxStatus.pending⟩ now).amount
                      (mkTx s ⟨uid, TxType.withdrawal, a, c, wa, r,
                        some TxStatus.pending⟩ now).status,
                    Ev.writeBalance uid (u.balance + -a)]) := by
              unfold withdrawRoute
              rw [if_neg h50, hgu]
              simp only [if_neg hlt]
              simp [hct, hub]
            by_cases hid : id = uid
            · subst hid
              refine ⟨u.balance + -a, ?_⟩
              rw [hroute]
              simp
            · rw [hroute, balanceOf_updateWhere_frame s _ uid (u.balance + -a) now id rfl hid] at hne
              exact absurd rfl hne

theorem investRoute_balance_frame (s : Store) (uid planId : Nat) (a : ℚ)
    (now : Nat) (id : Nat)
    (hne : balanceOf (investRoute s uid planId a now).2.1 id ≠ balanceOf s id) :
    ∃ q, Ev.writeBalance id q ∈ (investRoute s uid planId a now).2.2 := by
  cases hp : s.plans.find? (fun p => decide (p.id = planId)) with
  | none =>
    have hroute : investRoute s uid planId a now
        = (Except.error RouteErr.planNotFound, s, []) := by
      unfold investRoute
      rw [hp]
    rw [hroute] at hne
    exact absurd rfl hne
  | some plan =>
    by_cases hr : a < plan.minAmount ∨ a > plan.maxAmount
    · have hroute : investRoute s uid planId a now
          = (Except.error RouteErr.amountOutOfRange, s, []) := by
        unfold investRoute
        rw [hp]
        simp only [if_pos hr]
      rw [hroute] at hne
      exact absurd rfl hne
    · cases hgu : getUser s uid with
      | none =>
        have hroute : investRoute s uid planId a now
            = (Except.error RouteErr.insufficientBalance, s, []) := by
          unfold investRoute
          rw [hp]
          simp only [if_neg hr]
          rw [hgu]
        rw [hroute] at hne
        exact absurd rfl hne
      | some u0 =>
        by_cases hlt : u0.balance < a
        · have hroute : investRoute s uid planId a now
              = (Except.error RouteErr.insufficientBalance, s, []) := by
            unfold investRoute
            rw [hp]
            simp only [if_neg hr]
            rw [hgu]
            simp only [if_pos hlt]
          rw [hroute] at hne
          exact absurd rfl hne
        · rcases createInvestment_store s uid planId a with hci | hci
          · have hroute : investRoute s uid planId a now
                = (Except.error RouteErr.serverError, s, []) := by
              unfold investRoute
              rw [hp]
              simp only [if_neg hr]
              rw [hgu]
              simp only [if_neg hlt]
              simp [hci]
            rw [hroute] at hne
            exact absurd rfl hne
          · rcases updateUserBalance_cases { s with
                investments := (s.investments ++ [⟨s.nextInvId, uid, planId, a, true⟩]),
                nextInvId := s.nextInvId + 1 } uid (-a) now with ⟨e, hub⟩ | ⟨u, hg, hnn, hub⟩
            · have hroute : (investRoute s uid planId a now).2.1
                  = { s with
                      investments := (s.investments ++
                        ([⟨s.nextInvId, uid, planId, a, true⟩] : List Investment)),
                      nextInvId := s.nextInvId + 1 } := by
                unfold investRoute
                rw [hp]
                simp only [if_neg hr]
                rw [hgu]
                simp only [if_neg hlt]
                simp [hci, hub]
              rw [hroute, balanceOf_congr_users _ s id rfl] at hne
              exact absurd rfl hne
            · have hroute : investRoute s uid planId a now
                  = (Except.ok (⟨s.nextInvId, uid, planId, a, true⟩ : Investment),
                     { { s with
                         investments := (s.investments ++
                           ([⟨s.nextInvId, uid, planId, a, true⟩] : List Investment)),
                         nextInvId := s.nextInvId + 1 } with
                       users := (updateWhere s.users (fun v => decide (v.id = uid))
                          (fun v => { v with balance := u.balance + -a, updatedAt := now })) },
                     [Ev.insertInv s.nextInvId uid a,
                      Ev.writeBalance uid (u.balance + -a)]) := by
                unfold investRoute
                rw [hp]
                simp only [if_neg hr]
                rw [hgu]
                simp only [if_neg hlt]
                simp [hci, hub]
              by_cases hid : id = uid
              · subst hid
                refine ⟨u.balance + -a, ?_⟩
                rw [hroute]
                simp
              · rw [hroute, balanceOf_updateWhere_frame s _ uid (u.balance + -a) now id rfl hid] at hne
                exact absurd rfl hne

theorem approveRoute_balance_frame (s : Store) (txId now : Nat) (id : Nat)
    (hne : balanceOf (approveWithdrawalRoute s txId now).2.1 id ≠ balanceOf s id) :
    ∃ q, Ev.writeBalance id q ∈ (approveWithdrawalRoute s txId now).2.2 := by
  exfalso
  apply hne
  cases hfp : findPendingWithdrawal s txId with
  | none =>
    rw [approveWithdrawalRoute_notFound s txId now hfp]
  | some w =>
    rw [approveWithdrawalRoute_ok s txId now w hfp]
    exact balanceOf_congr_users _ s id rfl

theorem rejectRoute_balance_frame (s : Store) (txId now : Nat) (id : Nat)
    (hne : balanceOf (rejectWithdrawalRoute s txId now).2.1 id ≠ balanceOf s id) :
    ∃ q, Ev.writeBalance id q ∈ (rejectWithdrawalRoute s txId now).2.2 := by
  cases hfp : findPendingWithdrawal s txId with
  | none =>
    rw [rejectWithdrawalRoute_notFound s txId now hfp] at hne
    exact absurd rfl hne
  | some w =>
    rcases updateUserBalance_cases s w.userId w.amount now with ⟨e, hub⟩ | ⟨u, hg, hnn, hub⟩
    · have hroute : rejectWithdrawalRoute s txId now
          = (Except.error RouteErr.serverError, s, []) := by
        unfold rejectWithdrawalRoute
        rw [hfp]
        simp only [hub]
      rw [hroute] at hne
      exact absurd rfl hne
    · have hroute := rejectWithdrawalRoute_ok s txId now w u hfp hg hnn
      by_cases hid : id = w.userId
      · subst hid
        refine ⟨u.balance + w.amount, ?_⟩
        rw [hroute]
        simp
      · rw [hroute, balanceOf_updateWhere_frame s _ w.userId (u.balance + w.amount) now id
          rfl hid] at hne
        exact absurd rfl hne

theorem balance_writes_logged (s : Store) (now : Nat) (op : Op) (id : Nat)
    (hne : balanceOf (applyOp s now op) id ≠ balanceOf s id) :
    ∃ q, Ev.writeBalance id q ∈ opEvents s now op := by
  cases op with
  | deposit u a c => exact depositRoute_balance_frame s u a c now id hne
  | withdraw u a c wa r => exact withdrawRoute_balance_frame s u a c wa r now id hne
  | approve t => exact approveRoute_balance_frame s t now id hne
  | reject t => exact rejectRoute_balance_frame s t now id hne
  | invest u p a => exact investRoute_balance_frame s u p a now id hne

/-- Claim C8: in every state reachable by any sequence of the core operations
(deposit, requestWithdrawal, approveWithdrawal, rejectWithdrawal, invest)
from a state with non-negative balances, every user's balance stays
non-negative; and whenever an operation changes any user's balance, its
primitive-write log contains a Balance Engine write (`Ev.writeBalance`) for
that user — the balance field is never written outside `updateUserBalance`. -/
theorem reachable_nonneg_and_engine_only (s0 : Store) (ops : List Op) (n0 : Nat)
    (h0 : ∀ u ∈ s0.users, 0 ≤ u.balance) :
    (∀ u ∈ (runOps s0 ops n0).users, 0 ≤ u.balance)
    ∧ ∀ s now op id, balanceOf (applyOp s now op) id ≠ balanceOf s id →
        ∃ q, Ev.writeBalance id q ∈ opEvents s now op :=
  ⟨nonneg_runOps s0 ops n0 h0,
   fun s now op id hne => balance_writes_logged s now op id hne⟩

theorem reachable_nonneg_and_engine_only_witness :
    (∀ u ∈ (initStore 1 100).users, 0 ≤ u.balance)
    ∧ ((∀ u ∈ (runOps (initStore 1 100)
          [Op.deposit 1 60 none, Op.withdraw 1 150 none none none] 0).users, 0 ≤ u.balance)
      ∧ ∀ s now op id, balanceOf (applyOp s now op) id ≠ balanceOf s id →
          ∃ q, Ev.writeBalance id q ∈ opEvents s now op) :=
  ⟨by with_unfolding_all decide,
   reachable_nonneg_and_engine_only (initStore 1 100)
     [Op.deposit 1 60 none, Op.withdraw 1 150 none none none] 0
     (by with_unfolding_all decide)⟩

end EliteUnifiedTrade
